import Mathlib

/-!
# Verification of the blockbench addon-manager core

A shallow embedding of the Go sources of `makutaku/blockbench`:

* world-config operations and persistence (`internal/minecraft/config.go`),
* manifest parsing/validation and pack-type classification
  (`internal/minecraft/manifest.go`, the extractor),
* UUID validation and normalization (`pkg/validation`),
* archive entry extraction (`pkg/filesystem/archive.go`),
* the dependency analyzer (`internal/addon/dependencies.go`),
* the install / uninstall state machines (`internal/minecraft/server.go`,
  `internal/addon/installer.go`, `internal/addon/backup.go`,
  `pkg/filesystem/backup.go`).

Pure Go functions become Lean functions; the filesystem-mutating operations
become either traces of filesystem operations (`FsOp`) or transition functions
on an explicit `ServerState`, with I/O failures injected through explicit
parameters.  Go strings are modelled as Lean `String` (slicing is by
character; the strings handled by the modelled code paths are ASCII, where
Go's byte slicing agrees).  Go maps used as string sets become lists with
membership lookups; the nondeterministic iteration order of a Go map becomes
an explicit list order, and theorems that depend on it quantify over
permutations.
-/

namespace Blockbench

/-- A Go `[3]int` version triple (`internal/minecraft/config.go`,
`manifest.go`). -/
abbrev Version := Int × Int × Int

/-- `PackReference` (internal/minecraft/config.go lines 12-16): one entry of a
world config file, a `pack_id` plus a `version`. -/
structure PackReference where
  packId : String
  version : Version
deriving DecidableEq, Repr

/-- `WorldConfig` (internal/minecraft/config.go line 19): the ordered list of
pack references registered for a world. -/
abbrev WorldConfig := List PackReference

/-- `WorldConfig.HasPack` (internal/minecraft/config.go lines 176-183): scans
the entries for an exact pack-id match. -/
def hasPack (wc : WorldConfig) (packID : String) : Bool :=
  wc.any (fun p => p.packId == packID)

/-- `WorldConfig.GetPack` (internal/minecraft/config.go lines 186-193): returns
the first entry with the given pack id, if any. -/
def getPack (wc : WorldConfig) (packID : String) : Option PackReference :=
  wc.find? (fun p => p.packId == packID)

/-- `AddPackToConfig` (internal/minecraft/config.go lines 144-162): walks the
config; at the first entry whose `PackID` equals `packID` it overwrites that
entry's version in place and returns; if no entry matches it appends a new
entry at the end. -/
def addPackToConfig (config : WorldConfig) (packID : String) (version : Version) :
    WorldConfig :=
  match config with
  | [] => [⟨packID, version⟩]
  | p :: rest =>
    if p.packId == packID then ⟨p.packId, version⟩ :: rest
    else p :: addPackToConfig rest packID version

/-- `RemovePackFromConfig` (internal/minecraft/config.go lines 164-173): loops
over the config appending to a fresh result every entry whose `PackID` differs
from `packID`. -/
def removePackFromConfig (config : WorldConfig) (packID : String) : WorldConfig :=
  config.foldl (fun result p => if p.packId != packID then result ++ [p] else result) []

/-- A filesystem operation performed by the config persistence layer.  The
bytes written for a config are abstracted to the config value itself (the JSON
encoding of a `WorldConfig` cannot fail and is injective). -/
inductive FsOp where
  | write (path : String) (content : WorldConfig)
  | rename (src dst : String)
  | removeFile (path : String)
deriving DecidableEq, Repr

/-- `SaveWorldConfig` (internal/minecraft/config.go lines 130-142) as the trace
of filesystem operations it performs: `json.MarshalIndent` (pure, cannot fail
for this data shape), then a single direct `os.WriteFile(filePath, data, 0644)`
on the target path.  The source contains no temp-file write, no rename and no
removal. -/
def saveWorldConfig (filePath : String) (config : WorldConfig) : List FsOp :=
  [FsOp.write filePath config]

/-! ## pkg/validation: UUID validation and normalization -/

/-- `unicode.ToLower` as used by `strings.ToLower` in
`pkg/validation/uuid.go`, restricted to the ASCII range (the UUID strings the
code manipulates are ASCII; Go's simple case mapping agrees with this on
ASCII and is likewise idempotent beyond it). -/
def goToLower (c : Char) : Char :=
  if 65 ≤ c.toNat ∧ c.toNat ≤ 90 then Char.ofNat (c.toNat + 32) else c

/-- `strings.ReplaceAll(uuid, "-", "")` followed by `strings.ToLower`: the
`clean` intermediate of `NormalizeUUID`. -/
def cleanUUIDChars (uuid : String) : List Char :=
  (uuid.data.filter (fun c => c != '-')).map goToLower

/-- Re-insert dashes at the 8-4-4-4-12 positions:
`clean[:8] + "-" + clean[8:12] + "-" + clean[12:16] + "-" + clean[16:20] +
"-" + clean[20:]` of `NormalizeUUID`. -/
def dashedChars (clean : List Char) : List Char :=
  clean.take 8 ++ '-' ::
    ((clean.drop 8).take 4 ++ '-' ::
      (((clean.drop 8).drop 4).take 4 ++ '-' ::
        ((((clean.drop 8).drop 4).drop 4).take 4 ++ '-' ::
          (((clean.drop 8).drop 4).drop 4).drop 4)))

/-- `NormalizeUUID` (pkg/validation, part_002 lines 40-52):
`strings.ReplaceAll(uuid, "-", "")`, then `strings.ToLower`; if the result has
length 32 it is re-dashed at the 8-4-4-4-12 positions, otherwise the original
input is returned unchanged. -/
def normalizeUUID (uuid : String) : String :=
  if (cleanUUIDChars uuid).length = 32 then ⟨dashedChars (cleanUUIDChars uuid)⟩
  else uuid

/-- A hexadecimal digit, `[0-9a-fA-F]` of the `ValidateUUID` regex
(pkg/validation); the code points are those of `0`-`9` (48-57), `a`-`f`
(97-102) and `A`-`F` (65-70). -/
def isHexDigit (c : Char) : Bool :=
  (48 ≤ c.toNat && c.toNat ≤ 57) || (97 ≤ c.toNat && c.toNat ≤ 102) ||
    (65 ≤ c.toNat && c.toNat ≤ 70)

/-- Consume exactly `n` characters satisfying `p`, returning the rest. -/
def charRun (p : Char → Bool) : Nat → List Char → Option (List Char)
  | 0, rest => some rest
  | n + 1, c :: rest => if p c then charRun p n rest else none
  | _ + 1, [] => none

/-- Consume a single dash. -/
def dashRun : List Char → Option (List Char)
  | '-' :: rest => some rest
  | _ => none

/-- `ValidateUUID` (pkg/validation, part_002 lines 19-38): the string matches
either the dashed 8-4-4-4-12 hex pattern or the 32-hex-digit pattern. -/
def validateUUID (uuid : String) : Bool :=
  (charRun isHexDigit 8 uuid.data >>= dashRun >>= charRun isHexDigit 4 >>=
      dashRun >>= charRun isHexDigit 4 >>= dashRun >>= charRun isHexDigit 4 >>=
      dashRun >>= charRun isHexDigit 12) == some [] ||
    (uuid.data.length == 32 && uuid.data.all isHexDigit)

/-- A lowercase hexadecimal digit — the character class of an
already-normalized UUID: `0`-`9` (code points 48-57) or `a`-`f` (97-102). -/
def isLowerHexDigit (c : Char) : Bool :=
  (48 ≤ c.toNat && c.toNat ≤ 57) || (97 ≤ c.toNat && c.toNat ≤ 102)

/-- The claim's notion of an already-normalized UUID: lowercase hex digits with
dashes at the 8-4-4-4-12 positions. -/
def isNormalizedUUID (s : String) : Bool :=
  (charRun isLowerHexDigit 8 s.data >>= dashRun >>= charRun isLowerHexDigit 4 >>=
      dashRun >>= charRun isLowerHexDigit 4 >>= dashRun >>= charRun isLowerHexDigit 4 >>=
      dashRun >>= charRun isLowerHexDigit 12) == some []

/-! ## internal/minecraft/manifest.go: manifests and pack types -/

/-- `ManifestHeader` (internal/minecraft/manifest.go). -/
structure ManifestHeader where
  name : String
  description : String
  uuid : String
  version : Version
  minVersion : Version
deriving DecidableEq, Repr

/-- `ManifestModule` (internal/minecraft/manifest.go).  `mtype` is the
`type` field. -/
structure ManifestModule where
  mtype : String
  uuid : String
  version : Version
deriving DecidableEq, Repr

/-- `ManifestDependency` (internal/minecraft/manifest.go) after the custom
`UnmarshalJSON` has run: a pack dependency carries a non-empty `uuid` and an
integer-triple `version`; a module dependency carries a non-empty `moduleName`
and a string `moduleVersion`.  The raw-JSON field is not modelled. -/
structure ManifestDependency where
  uuid : String
  version : Version
  moduleName : String
  moduleVersion : String
deriving DecidableEq, Repr

/-- `Manifest` (internal/minecraft/manifest.go). -/
structure Manifest where
  formatVersion : Int
  header : ManifestHeader
  modules : List ManifestModule
  dependencies : List ManifestDependency
deriving DecidableEq, Repr

/-- `PackType` (internal/minecraft/manifest.go). -/
inductive PackType where
  | behavior
  | resource
  | unknown
deriving DecidableEq, Repr

/-- `Manifest.GetPackType` (internal/minecraft/manifest.go lines 96-107
of the claim numbering): scan the modules in order; the first module of type
`"data"` gives behavior, the first of type `"resources"` gives resource; any
other module type (including `"script"`) is skipped by the `switch`; if no
module matches, unknown. -/
def getPackType (m : Manifest) : PackType :=
  go m.modules
where
  go : List ManifestModule → PackType
  | [] => PackType.unknown
  | mod :: rest =>
    if mod.mtype == "data" then PackType.behavior
    else if mod.mtype == "resources" then PackType.resource
    else go rest

/-- `validation.UUIDShortDisplayLength` (pkg/validation, part_002 line 10). -/
def uuidShortDisplayLength : Nat := 8

/-- `Manifest.GetDisplayName` (internal/minecraft/manifest.go): the header
name if non-empty, otherwise `Pack-` plus the first 8 characters of the UUID
(the whole UUID when shorter). -/
def getDisplayName (m : Manifest) : String :=
  if m.header.name != "" then m.header.name
  else if m.header.uuid.length ≥ uuidShortDisplayLength then
    "Pack-" ++ ⟨m.header.uuid.data.take uuidShortDisplayLength⟩
  else "Pack-" ++ m.header.uuid

/-- The valid module types of `ValidateManifest`
(internal/minecraft/manifest.go). -/
def validModuleTypes : List String :=
  ["data", "resources", "script", "skin_pack", "world_template"]

/-- A version triple has no negative component (the per-component checks of
`ValidateManifest`). -/
def versionNonNeg (v : Version) : Bool :=
  decide (0 ≤ v.1) && decide (0 ≤ v.2.1) && decide (0 ≤ v.2.2)

/-- The duplicate-module-UUID scan of `ValidateManifest`: Go builds a
`map[string]bool` of seen UUIDs and fails at the first repeat. -/
def modulesHaveDupUUID (mods : List ManifestModule) : Bool :=
  go mods []
where
  go : List ManifestModule → List String → Bool
  | [], _ => false
  | mod :: rest, seen =>
    if seen.contains mod.uuid then true else go rest (mod.uuid :: seen)

/-- `ValidateManifest` (internal/minecraft/manifest.go lines 772-854): the
format version must be 1 or 2, the header UUID must validate, all version
components are non-negative, the modules are non-empty with valid unique
UUIDs and valid types, and every pack dependency has a valid UUID and
non-negative version.  Error messages are abstracted to short tags. -/
def validateManifest (m : Manifest) : Except String Unit :=
  if m.formatVersion < 1 || m.formatVersion > 2 then
    Except.error "unsupported format version"
  else if !validateUUID m.header.uuid then
    Except.error "invalid header UUID format"
  else if !versionNonNeg m.header.version then
    Except.error "header version cannot be negative"
  else if m.header.minVersion != ((0 : Int), (0 : Int), (0 : Int)) &&
      !versionNonNeg m.header.minVersion then
    Except.error "min_engine_version cannot be negative"
  else if m.modules.isEmpty then
    Except.error "manifest must have at least one module"
  else if m.modules.any (fun mod => !validateUUID mod.uuid) then
    Except.error "invalid module UUID format"
  else if modulesHaveDupUUID m.modules then
    Except.error "duplicate module UUID"
  else if m.modules.any (fun mod => !validModuleTypes.contains mod.mtype) then
    Except.error "invalid module type"
  else if m.modules.any (fun mod => !versionNonNeg mod.version) then
    Except.error "module version cannot be negative"
  else if m.dependencies.any
      (fun dep => dep.uuid != "" &&
        (!validateUUID dep.uuid || !versionNonNeg dep.version)) then
    Except.error "invalid dependency"
  else
    Except.ok ()

/-- An extracted pack (internal/addon, part_012): the parsed manifest and the
pack type it was classified as; the scratch path is abstracted away. -/
structure ExtractedPack where
  manifest : Manifest
  packType : PackType
deriving DecidableEq, Repr

/-- `processManifest` (internal/addon, part_012 lines 162-185) after the
manifest has been read from disk: the required-field checks of
`ParseManifestFromReader` (non-empty header UUID, non-empty modules), then
`ValidateManifest`, then the pack-type gate rejecting `PackTypeUnknown`. -/
def processManifest (m : Manifest) : Except String ExtractedPack :=
  if m.header.uuid == "" then Except.error "manifest missing required UUID in header"
  else if m.modules.isEmpty then Except.error "manifest missing required modules"
  else
    match validateManifest m with
    | Except.error e => Except.error e
    | Except.ok _ =>
      if getPackType m == PackType.unknown then
        Except.error "unable to determine pack type from manifest"
      else Except.ok ⟨m, getPackType m⟩

/-! ## pkg/filesystem/archive.go: archive entry extraction -/

/-- Split a character list at every slash (Go `strings.Split(path, "/")`). -/
def splitSlash : List Char → List (List Char)
  | [] => [[]]
  | '/' :: rest => [] :: splitSlash rest
  | c :: rest =>
    match splitSlash rest with
    | seg :: segs => (c :: seg) :: segs
    | [] => [[c]]

/-- Join segments with slashes (Go `strings.Join(segs, "/")`). -/
def joinSlash : List (List Char) → List Char
  | [] => []
  | [seg] => seg
  | seg :: rest => seg ++ '/' :: joinSlash rest

/-- One step of Go `path/filepath.Clean` (Unix): process a path segment
against the output stack — drop empty and `.` segments, let `..` pop a
non-`..` segment (or vanish at the root of a rooted path), and push everything
else. -/
def goCleanStep (rooted : Bool) (out : List (List Char)) (seg : List Char) :
    List (List Char) :=
  if seg = [] || seg = ['.'] then out
  else if seg = ['.', '.'] then
    if out ≠ [] ∧ out.getLast? ≠ some ['.', '.'] then out.dropLast
    else if rooted then out
    else out ++ [['.', '.']]
  else out ++ [seg]

/-- Go `path/filepath.Clean` for slash-separated (Unix) paths: the lexical
simplification applied by `extractFile` before the traversal check. -/
def goClean (path : String) : String :=
  if path.data = [] then "."
  else
    let rooted :=
      match path.data with
      | '/' :: _ => true
      | _ => false
    let segs := (splitSlash path.data).foldl (goCleanStep rooted) []
    let out := joinSlash segs
    if rooted then ⟨'/' :: out⟩
    else if out = [] then "." else ⟨out⟩

/-- `strings.Contains(s, "..")`: does the character list contain two
consecutive dots? -/
def hasDotDot : List Char → Bool
  | '.' :: '.' :: _ => true
  | _ :: rest => hasDotDot rest
  | [] => false

/-- Go `path/filepath.Dir`: everything but the last element, cleaned. -/
def goDir (path : String) : String :=
  let parts := splitSlash path.data
  if parts.length ≤ 1 then "." else goClean ⟨joinSlash parts.dropLast⟩

/-- A ZIP archive entry as seen by pkg/filesystem/archive.go: its name, the
mode bits the extractor could consult (directory flag, symlink flag — the
latter models `file.FileInfo().Mode() & os.ModeSymlink != 0`), and its
decompressed size in bytes. -/
structure ZipEntry where
  name : String
  isDir : Bool
  isSymlink : Bool
  uncompressedSize : Nat
deriving DecidableEq, Repr

/-- A filesystem action performed by `extractFile`. -/
inductive ExtractAction where
  | mkdirAll (path : String)
  | writeFile (path : String)
deriving DecidableEq, Repr

/-- The decompression-bomb limit of `extractFile`
(pkg/filesystem/archive.go line 71): 100 MiB per file. -/
def maxFileSize : Nat := 100 * 1024 * 1024

/-- `extractFile` (pkg/filesystem/archive.go lines 36-84): clean the entry
name and reject it if the cleaned form still contains `..`; a directory entry
becomes `MkdirAll`; a file entry creates its parent directories and writes the
entry content, failing if the decompressed size reaches the 100 MiB limit.
`filepath.Join(destDir, cleanPath)` is modelled as slash concatenation (the
cleaned relative path keeps the join lexical).  Note that the function never
inspects the entry's symlink mode bit: there is no symlink branch in the
source. -/
def extractFile (file : ZipEntry) (destDir : String) :
    Except String (List ExtractAction) :=
  let cleanPath := goClean file.name
  if hasDotDot cleanPath.data then
    Except.error ("invalid file path: " ++ file.name)
  else
    let destPath := destDir ++ "/" ++ cleanPath
    if file.isDir then Except.ok [ExtractAction.mkdirAll destPath]
    else if file.uncompressedSize ≥ maxFileSize then
      Except.error ("file too large after decompression: " ++ file.name)
    else
      Except.ok [ExtractAction.mkdirAll (goDir destPath), ExtractAction.writeFile destPath]

/-! ## internal/addon/dependencies.go: the dependency analyzer

`map[string]*PackRelationship` becomes an association list
`List (String × PackRel)`; a Go map's key set is duplicate-free, which becomes
an explicit hypothesis (`NoDup`) on theorems, and the map's nondeterministic
iteration order becomes the list order. -/

/-- `PackRelationship` (internal/addon/dependencies.go lines 12-19), reduced
to the fields the analyzer reads: the pack's UUID (`Pack.PackID`), its forward
dependency edges and its computed reverse edges.  Module names and the full
manifest are carried by the Go struct but never consulted by cycle detection
or classification. -/
structure PackRel where
  packId : String
  deps : List String
  dependents : List String
deriving DecidableEq, Repr

/-- Lookup in the relationships map: `relationships[packID]`. -/
def lookupRel (rels : List (String × PackRel)) (packID : String) : Option PackRel :=
  (rels.find? (fun e => e.1 == packID)).map (fun e => e.2)

/-- `calculateDependents` (internal/addon/dependencies.go lines 516-524):
for every pack and every dependency edge whose target is in the map, append
the pack's id to the target's `Dependents`. -/
def calculateDependents (rels : List (String × PackRel)) : List (String × PackRel) :=
  rels.foldl
    (fun acc e =>
      e.2.deps.foldl
        (fun acc depID =>
          acc.map (fun f =>
            if f.1 == depID then
              (f.1, { f.2 with dependents := f.2.dependents ++ [e.1] })
            else f))
        acc)
    rels

/-- The two mutable sets of `detectCircularDependencies`: `visited` and
`recursionStack` (both `map[string]bool`, modelled as duplicate-free member
lists). -/
structure DfsState where
  visited : List String
  recStack : List String
deriving DecidableEq, Repr

/-- Set a `map[string]bool` entry to true: insert if absent. -/
def setFlag (s : List String) (x : String) : List String :=
  if s.contains x then s else x :: s

/-- Set a `map[string]bool` entry to false: remove it. -/
def clearFlag (s : List String) (x : String) : List String :=
  s.erase x

/-- A pending step of the `dfs` closure of `detectCircularDependencies`:
either enter a node, or continue the `for _, depID := range rel.Dependencies`
loop of the node named first (whose recursion-stack flag is cleared when the
loop ends). -/
inductive DfsFrame where
  | visit (packID : String) (path : List String)
  | deps (packID : String) (remaining : List String) (path : List String)
deriving DecidableEq, Repr

/-- The recursive closure `dfs` of `detectCircularDependencies`
(internal/addon/dependencies.go lines 552-594), with explicit fuel standing in
for Go's unbounded call stack (the callers pass enough fuel to finish, see
`dfsFuel`).  Entering a node marks it visited and on the recursion stack and
appends it to the path; the dependency loop recurses into unvisited
dependencies and, on a back edge to a node on the recursion stack, extracts
the cycle as the path suffix starting at that node.  A found cycle is
propagated up immediately *without* clearing any recursion-stack flags,
exactly as the Go early `return` does; only a completed loop clears its
node's flag. -/
def dfsRun (rels : List (String × PackRel)) :
    Nat → DfsFrame → DfsState → Option (List String) × DfsState
  | 0, _, st => (none, st)
  | fuel + 1, DfsFrame.visit packID path, st =>
    let st := ⟨setFlag st.visited packID, setFlag st.recStack packID⟩
    let path := path ++ [packID]
    match lookupRel rels packID with
    | none => (none, ⟨st.visited, clearFlag st.recStack packID⟩)
    | some rel => dfsRun rels fuel (DfsFrame.deps packID rel.deps path) st
  | _ + 1, DfsFrame.deps packID [] _, st =>
    (none, ⟨st.visited, clearFlag st.recStack packID⟩)
  | fuel + 1, DfsFrame.deps packID (depID :: more) path, st =>
    if !st.visited.contains depID then
      match dfsRun rels fuel (DfsFrame.visit depID path) st with
      | (some cyclePath, st) => (some cyclePath, st)
      | (none, st) => dfsRun rels fuel (DfsFrame.deps packID more path) st
    else if st.recStack.contains depID then
      match path.indexOf? depID with
      | some cycleStart => (some (path.drop cycleStart), st)
      | none => dfsRun rels fuel (DfsFrame.deps packID more path) st
    else dfsRun rels fuel (DfsFrame.deps packID more path) st

/-- Enough fuel for `dfsRun` to finish: a crude upper bound on the number of
steps a depth-first traversal of the relationship graph can take. -/
def dfsFuel (rels : List (String × PackRel)) : Nat :=
  let total := rels.length + (rels.map (fun e => e.2.deps.length)).sum
  (total + 2) * (total + 2)

/-- The comma-joined deduplication key of a cycle path
(internal/addon/dependencies.go lines 602-605): the concatenation of the pack
ids in traversal order, each followed by a comma.  The inline comment claims
the ids are sorted; the code does not sort them. -/
def cycleKey (cyclePath : List String) : String :=
  cyclePath.foldl (fun k id => k ++ id ++ ",") ""

/-- One iteration of the top loop of `detectCircularDependencies`: start a
DFS at `packID` when it is unvisited, and record a returned cycle unless its
key was seen before; ids missing from the map are dropped when the cycle path
is converted to pack records. -/
def detectStep (rels : List (String × PackRel)) (fuel : Nat) :
    DfsState × List String × List (List PackRel) → String →
      DfsState × List String × List (List PackRel)
  | (st, found, cycles), packID =>
  if !st.visited.contains packID then
    match dfsRun rels fuel (DfsFrame.visit packID []) st with
    | (some cyclePath, st) =>
      let key := cycleKey cyclePath
      if !found.contains key then
        let cyclePacks := cyclePath.filterMap (lookupRel rels)
        if cyclePacks.length > 0 then (st, key :: found, cycles ++ [cyclePacks])
        else (st, key :: found, cycles)
      else (st, found, cycles)
    | (none, st) => (st, found, cycles)
  else (st, found, cycles)

/-- `detectCircularDependencies` (internal/addon/dependencies.go lines
540-625): run the DFS from every not-yet-visited pack in iteration order,
carrying the visited/recursion-stack state across starts; each returned cycle
path is deduplicated by its key and converted to pack records through map
lookups. -/
def detectCircularDependencies (rels : List (String × PackRel)) :
    List (List PackRel) :=
  ((rels.map (fun e => e.1)).foldl (detectStep rels (dfsFuel rels))
    (⟨[], []⟩, [], [])).2.2

/-- `DependencyGroup` (internal/addon/dependencies.go lines 21-27). -/
structure DependencyGroup where
  rootPacks : List PackRel
  dependentPacks : List PackRel
  standalonePacks : List PackRel
  circularGroups : List (List PackRel)
deriving DecidableEq, Repr

/-- The classification loop of `groupPacksByRelationships`
(internal/addon/dependencies.go lines 650-680): skip packs already processed
or in a circular group; otherwise place the pack by whether it has
dependencies and dependents (both present but not circular also lands in
`DependentPacks`). -/
def classifyPacks (inCirc : List String) :
    List (String × PackRel) → List String → DependencyGroup → DependencyGroup
  | [], _, group => group
  | (packID, rel) :: rest, processed, group =>
    if processed.contains packID then classifyPacks inCirc rest processed group
    else if inCirc.contains packID then
      classifyPacks inCirc rest (packID :: processed) group
    else
      let hasDependencies := rel.deps.length > 0
      let hasDependents := rel.dependents.length > 0
      let group :=
        if !hasDependencies && !hasDependents then
          { group with standalonePacks := group.standalonePacks ++ [rel] }
        else if !hasDependencies && hasDependents then
          { group with rootPacks := group.rootPacks ++ [rel] }
        else
          { group with dependentPacks := group.dependentPacks ++ [rel] }
      classifyPacks inCirc rest (packID :: processed) group

/-- `groupPacksByRelationships` (internal/addon/dependencies.go lines
628-683): detect the circular groups first, mark their members, then classify
every remaining pack. -/
def groupPacksByRelationships (rels : List (String × PackRel)) : DependencyGroup :=
  let circularGroups := detectCircularDependencies rels
  let inCirc := (circularGroups.flatten).map (fun rel => rel.packId)
  classifyPacks inCirc rels []
    { rootPacks := [], dependentPacks := [], standalonePacks := [],
      circularGroups := circularGroups }

/-! ## internal/minecraft/server.go and internal/addon: install / uninstall

The mutable server directory becomes an explicit `ServerState`: the two world
config files, the two history config files (backed up, never written), and the
pack directories under the behavior and resource pack roots.  Save operations
are assumed to succeed (their failure modes are orthogonal to the claims);
`copyDir` and `os.RemoveAll` failures are injected through explicit
parameters.  A config file that does not exist and an empty config file are
identified (LoadWorldConfig reads both as the empty sequence). -/

/-- `InstalledPack` (internal/minecraft/server.go, part_009 lines 261-268). -/
structure InstalledPack where
  packId : String
  name : String
  description : String
  version : Version
  ptype : PackType
deriving DecidableEq, Repr

/-- `ExtractedAddon` (internal/addon, part_012 lines 13-19), scratch directory
abstracted away. -/
structure ExtractedAddon where
  behaviorPacks : List ExtractedPack
  resourcePacks : List ExtractedPack
deriving DecidableEq, Repr

/-- `ExtractedAddon.GetAllPacks` (part_012 lines 36-42): behavior packs first,
then resource packs. -/
def getAllPacks (addon : ExtractedAddon) : List ExtractedPack :=
  addon.behaviorPacks ++ addon.resourcePacks

/-- One unmet requirement reported by `validateDependencies`: Go formats it as
`"Pack '<display name>' requires dependency UUID <uuid> which is not
installed"`; the two values interpolated into that message are kept as
fields. -/
structure MissingDep where
  requiring : String
  uuid : String
deriving DecidableEq, Repr

/-- Insertion into a `map[string]bool` used as a string set. -/
def insertUUID (set : List String) (id : String) : List String :=
  if set.contains id then set else set ++ [id]

/-- The `installedUUIDs` set of `Installer.validateDependencies`
(internal/addon/installer.go lines 382-391): the UUIDs of the enumerated
installed packs, then the UUIDs of the packs being installed
(self-satisfied dependencies). -/
def incomingUnionSet (installed : List InstalledPack) (addon : ExtractedAddon) :
    List String :=
  (getAllPacks addon).foldl (fun set p => insertUUID set p.manifest.header.uuid)
    (installed.foldl (fun set p => insertUUID set p.packId) [])

/-- `Installer.validateDependencies` (internal/addon/installer.go lines
372-410): report every declared dependency with a non-empty UUID that is not
in the `installedUUIDs` set; module-name dependencies (empty `uuid`) are never
checked. -/
def validateDependencies (installed : List InstalledPack) (addon : ExtractedAddon) :
    List MissingDep :=
  (getAllPacks addon).foldl
    (fun missing p =>
      p.manifest.dependencies.foldl
        (fun missing dep =>
          if dep.uuid != "" && !(incomingUnionSet installed addon).contains dep.uuid then
            missing ++ [⟨getDisplayName p.manifest, dep.uuid⟩]
          else missing)
        missing)
    []

/-- A pack directory under one of the pack roots: its directory name and the
header UUID of its `manifest.json` (`none` models an unreadable manifest,
which the directory scans skip). -/
structure PackDirEntry where
  dirName : String
  manifestUuid : Option String
deriving DecidableEq, Repr

/-- The mutable server directory as the modelled operations see it. -/
structure ServerState where
  behaviorConfig : WorldConfig
  resourceConfig : WorldConfig
  behaviorHistory : WorldConfig
  resourceHistory : WorldConfig
  behaviorDirs : List PackDirEntry
  resourceDirs : List PackDirEntry
deriving DecidableEq, Repr

/-- The world config governed by a (behavior/resource) pack type. -/
def getConfigOf (s : ServerState) (pt : PackType) : WorldConfig :=
  match pt with
  | PackType.behavior => s.behaviorConfig
  | _ => s.resourceConfig

/-- Write back the world config governed by a pack type. -/
def setConfigOf (s : ServerState) (pt : PackType) (c : WorldConfig) : ServerState :=
  match pt with
  | PackType.behavior => { s with behaviorConfig := c }
  | _ => { s with resourceConfig := c }

/-- The pack directories governed by a pack type. -/
def getDirsOf (s : ServerState) (pt : PackType) : List PackDirEntry :=
  match pt with
  | PackType.behavior => s.behaviorDirs
  | _ => s.resourceDirs

/-- Write back the pack directories governed by a pack type. -/
def setDirsOf (s : ServerState) (pt : PackType) (d : List PackDirEntry) : ServerState :=
  match pt with
  | PackType.behavior => { s with behaviorDirs := d }
  | _ => { s with resourceDirs := d }

/-- Modelled from the spec: `validation.GetSafeUUIDPrefix`, called by
server.go when naming the installed pack directory, is not among the source
files; spec §3 says an 8-character prefix of the UUID is used as the human
short-form and that short-form operations bounds-check. -/
def safeUUIDShort (uuid : String) : String :=
  ⟨uuid.data.take 8⟩

/-- `Server.InstallPack` (internal/minecraft/server.go, part_009 lines
34-98): refuse unknown pack types; update the governed world config first
(add-or-replace the entry) and save; then copy the staged pack directory into
`<display name>_<uuid short form>` under the governed pack root.  `copyFails`
injects a `copyDir` failure, upon which the config change is rolled back —
note the Go rollback removes the entry and, when the pack existed before,
re-adds the original entry (which appends it at the end). -/
def installPack (s : ServerState) (m : Manifest) (copyFails : Bool) :
    ServerState × Option String :=
  let pt := getPackType m
  if pt == PackType.unknown then
    (s, some ("unknown pack type for pack " ++ m.header.uuid))
  else
    let packDirName := getDisplayName m ++ "_" ++ safeUUIDShort m.header.uuid
    let config := getConfigOf s pt
    let originalPack := getPack config m.header.uuid
    let newConfig := addPackToConfig config m.header.uuid m.header.version
    let s1 := setConfigOf s pt newConfig
    if copyFails then
      let rollbackConfig :=
        match originalPack with
        | some orig =>
          addPackToConfig (removePackFromConfig newConfig m.header.uuid)
            orig.packId orig.version
        | none => removePackFromConfig newConfig m.header.uuid
      (setConfigOf s1 pt rollbackConfig, some "failed to copy pack files")
    else
      (setDirsOf s1 pt (getDirsOf s1 pt ++ [⟨packDirName, some m.header.uuid⟩]), none)

/-- `Installer.installPacks` (internal/addon/installer.go lines 412-427):
install each pack of the addon in order, stopping at the first failure.
`failAt` injects a `copyDir` failure at the given position. -/
def installPacks (s : ServerState) (packs : List ExtractedPack)
    (failAt : Option Nat) (idx : Nat) : ServerState × Option String :=
  match packs with
  | [] => (s, none)
  | p :: rest =>
    match installPack s p.manifest (failAt == some idx) with
    | (s1, some e) => (s1, some ("failed to install pack: " ++ e))
    | (s1, none) => installPacks s1 rest failAt (idx + 1)

/-- The files snapshotted by `CreateInstallBackup` (internal/addon/backup.go
lines 27-47): exactly the two world config files and the two history files —
no pack directories. -/
structure ConfigSnapshot where
  behaviorConfig : WorldConfig
  resourceConfig : WorldConfig
  behaviorHistory : WorldConfig
  resourceHistory : WorldConfig
deriving DecidableEq, Repr

/-- `CreateInstallBackup`: copy the four config files into the backup area. -/
def createInstallBackup (s : ServerState) : ConfigSnapshot :=
  ⟨s.behaviorConfig, s.resourceConfig, s.behaviorHistory, s.resourceHistory⟩

/-- `RestoreBackup` (pkg/filesystem/backup.go, part_005 lines 84-99): write
every backed-up file back over the live tree.  Only the four snapshotted
config files are touched; the pack directories are not part of an install
backup.  `restoreFails` injects a restore failure (modelled all-or-nothing). -/
def restoreBackup (s : ServerState) (snap : ConfigSnapshot) (restoreFails : Bool) :
    ServerState × Option String :=
  if restoreFails then (s, some "failed to restore")
  else
    ({ s with
        behaviorConfig := snap.behaviorConfig
        resourceConfig := snap.resourceConfig
        behaviorHistory := snap.behaviorHistory
        resourceHistory := snap.resourceHistory }, none)

/-- An entry of `InstallResult.Errors` (internal/addon/installer.go): Go
appends formatted strings `"Rollback failed: …"`, `"Installation failed: …"`,
`"Post-installation validation failed: …"`; the format tag becomes a
constructor. -/
inductive InstallIssue where
  | installationFailed (msg : String)
  | rollbackFailed (msg : String)
  | postValidationFailed (msg : String)
deriving DecidableEq, Repr

/-- The slice of `InstallResult` relevant to rollback behavior. -/
structure InstallResultM where
  success : Bool
  errors : List InstallIssue
deriving DecidableEq, Repr

/-- Is an issue the rollback-failure report? -/
def isRollbackIssue : InstallIssue → Bool
  | InstallIssue.rollbackFailed _ => true
  | _ => false

/-- `Installer.postInstallValidation` (internal/addon/installer.go lines
429-450): re-enumerate the installed packs (the entries of both world
configs) and require every incoming pack's UUID to appear. -/
def postInstallValidation (s : ServerState) (addon : ExtractedAddon) : Bool :=
  (getAllPacks addon).all
    (fun p =>
      ((s.behaviorConfig ++ s.resourceConfig).map (fun e => e.packId)).contains
        p.manifest.header.uuid)

/-- `Installer.InstallAddon` steps 5-9 (internal/addon/installer.go lines
196-312): create the backup, install the packs, and on any failure restore
the backup — appending a rollback-failure error when the restore itself
fails, then the primary error; on post-install validation failure likewise.
The validation / conflict / dependency steps that precede the backup are not
modelled: the claims quantify over installs that fail after the backup
step. -/
def installAddonFromBackup (s : ServerState) (addon : ExtractedAddon)
    (failAt : Option Nat) (restoreFails : Bool) : ServerState × InstallResultM :=
  let backup := createInstallBackup s
  match installPacks s (getAllPacks addon) failAt 0 with
  | (s1, some e) =>
    let (s2, rerr) := restoreBackup s1 backup restoreFails
    let rollbackErrors :=
      match rerr with
      | some r => [InstallIssue.rollbackFailed r]
      | none => []
    (s2, ⟨false, rollbackErrors ++ [InstallIssue.installationFailed e]⟩)
  | (s1, none) =>
    if postInstallValidation s1 addon then (s1, ⟨true, []⟩)
    else
      let (s2, rerr) := restoreBackup s1 backup restoreFails
      let rollbackErrors :=
        match rerr with
        | some r => [InstallIssue.rollbackFailed r]
        | none => []
      (s2, ⟨false, rollbackErrors ++
        [InstallIssue.postValidationFailed "packs not found after installation"]⟩)

/-- The directory scan of `Server.removePackDir` (part_009 lines 277-303):
walk the entries of the governed pack root, skipping unreadable manifests, and
remove the first directory whose manifest UUID matches; `none` when no
directory matches (Go returns the "pack directory not found" error). -/
def removePackDirScan (dirs : List PackDirEntry) (packID : String) :
    Option (List PackDirEntry) :=
  match dirs with
  | [] => none
  | d :: rest =>
    match d.manifestUuid with
    | some u =>
      if u == packID then some rest
      else (removePackDirScan rest packID).map (fun r => d :: r)
    | none => (removePackDirScan rest packID).map (fun r => d :: r)

/-- `Server.UninstallPack` (internal/minecraft/server.go, part_009 lines
100-160): look for the pack in the behavior config first; if present, remove
its entry, save, and delete the matching behavior pack directory (rolling the
config back if the directory removal fails), returning without ever touching
the resource side.  Only when the behavior config lacks the pack is the
resource config consulted, symmetrically.  If neither config has it, fail.
`removeDirFails` injects an `os.RemoveAll` failure. -/
def uninstallPack (s : ServerState) (packID : String) (removeDirFails : Bool) :
    ServerState × Option String :=
  if hasPack s.behaviorConfig packID then
    let updated := removePackFromConfig s.behaviorConfig packID
    let s1 := { s with behaviorConfig := updated }
    match removePackDirScan s1.behaviorDirs packID with
    | none =>
      ({ s1 with behaviorConfig := s.behaviorConfig },
        some "failed to remove behavior pack directory")
    | some newDirs =>
      if removeDirFails then
        ({ s1 with behaviorConfig := s.behaviorConfig },
          some "failed to remove behavior pack directory")
      else ({ s1 with behaviorDirs := newDirs }, none)
  else if hasPack s.resourceConfig packID then
    let updated := removePackFromConfig s.resourceConfig packID
    let s1 := { s with resourceConfig := updated }
    match removePackDirScan s1.resourceDirs packID with
    | none =>
      ({ s1 with resourceConfig := s.resourceConfig },
        some "failed to remove resource pack directory")
    | some newDirs =>
      if removeDirFails then
        ({ s1 with resourceConfig := s.resourceConfig },
          some "failed to remove resource pack directory")
      else ({ s1 with resourceDirs := newDirs }, none)
  else (s, some "pack is not installed on this server")

/-- The first module type that the `GetPackType` switch reacts to — the
classifying module type, stated from the amended claim's words for
comparison with `getPackType`. -/
def firstClassifyingType (mods : List ManifestModule) : Option String :=
  (mods.find? (fun mod => mod.mtype == "data" || mod.mtype == "resources")).map
    (fun mod => mod.mtype)

/-! ## Concrete instances used by counterexamples and witnesses -/

/-- A minimal behavior-pack manifest with one `data` module. -/
def dataPackManifest (uuid name : String) : Manifest :=
  ⟨2, ⟨name, "", uuid, (1, 0, 0), (0, 0, 0)⟩, [⟨"data", uuid, (1, 0, 0)⟩], []⟩

/-- A manifest whose only module has type `script` (a pure script behavior
pack), with otherwise valid fields. -/
def scriptOnlyManifest : Manifest :=
  ⟨2, ⟨"Script Pack", "", "33333333-3333-3333-3333-333333333333", (1, 0, 0), (0, 0, 0)⟩,
    [⟨"script", "33333333-3333-3333-3333-333333333334", (1, 0, 0)⟩], []⟩

/-- A server with empty configs and no pack directories. -/
def emptyServer : ServerState := ⟨[], [], [], [], [], []⟩

/-- An addon holding two behavior packs. -/
def twoBehaviorAddon : ExtractedAddon :=
  ⟨[⟨dataPackManifest "11111111-1111-1111-1111-111111111111" "Foo", PackType.behavior⟩,
    ⟨dataPackManifest "22222222-2222-2222-2222-222222222222" "Bar", PackType.behavior⟩],
    []⟩

/-- Dependency graph nodes before reverse-edge computation: `a` depends on
`b`; `b` depends on `a` and `c`; `c` depends on `b`.  The graph has two
cycles, `a ↔ b` and `b ↔ c`. -/
def depEntryA : String × PackRel := ("a", ⟨"a", ["b"], []⟩)

/-- See `depEntryA`. -/
def depEntryB : String × PackRel := ("b", ⟨"b", ["a", "c"], []⟩)

/-- See `depEntryA`. -/
def depEntryC : String × PackRel := ("c", ⟨"c", ["b"], []⟩)

/-- All six iteration orders of the three-node relationship map, standing in
for the nondeterministic iteration order of a Go map. -/
def depOrders : List (List (String × PackRel)) :=
  [[depEntryA, depEntryB, depEntryC], [depEntryA, depEntryC, depEntryB],
    [depEntryB, depEntryA, depEntryC], [depEntryB, depEntryC, depEntryA],
    [depEntryC, depEntryA, depEntryB], [depEntryC, depEntryB, depEntryA]]

/-- The three-node relationship map in one fixed order, with the reverse
edges computed. -/
def depRels : List (String × PackRel) :=
  calculateDependents [depEntryA, depEntryB, depEntryC]

/-- A behavior pack named `Foo` declaring one pack-UUID dependency. -/
def depManifest : Manifest :=
  ⟨2, ⟨"Foo", "", "11111111-1111-1111-1111-111111111111", (1, 0, 0), (0, 0, 0)⟩,
    [⟨"data", "11111111-1111-1111-1111-111111111111", (1, 0, 0)⟩],
    [⟨"44444444-4444-4444-4444-444444444444", (1, 0, 0), "", ""⟩]⟩

/-- An addon holding only `depManifest`. -/
def depAddon : ExtractedAddon := ⟨[⟨depManifest, PackType.behavior⟩], []⟩

/-- A server on which the same UUID `u1` is registered in both the behavior
and the resource world config, with a matching pack directory on each side. -/
def serverWithBoth : ServerState :=
  ⟨[⟨"u1", (1, 0, 0)⟩], [⟨"u1", (1, 0, 0)⟩], [], [],
    [⟨"Foo_u1", some "u1"⟩], [⟨"Foo_u1", some "u1"⟩]⟩

/-! ## Helper lemmas -/

/-- The `RemovePackFromConfig` loop is the filter keeping non-matching
entries. -/
theorem removePack_foldl_eq_filter (packID : String) (config : WorldConfig) :
    ∀ acc : WorldConfig,
      config.foldl (fun result p => if p.packId != packID then result ++ [p] else result)
          acc =
        acc ++ config.filter (fun p => p.packId != packID) := by
  induction config with
  | nil => intro acc; simp
  | cons p rest ih =>
    intro acc
    rw [List.foldl_cons, List.filter_cons]
    by_cases hp : (p.packId != packID) = true
    · rw [if_pos hp, if_pos hp, ih]
      simp
    · rw [if_neg hp, if_neg hp]
      exact ih acc

/-! ## Claim theorems -/

/-- **C1** (status: code_bug).  `SaveWorldConfig(p, C)` performs exactly one
filesystem operation: a direct `os.WriteFile` of the encoded config to the
target path `p`.  It never writes `p + ".tmp"` and never renames anything, so
the spec's write-temp-then-atomic-rename contract (and the CHANGELOG's
"Implemented atomic config file writes using temp file + rename pattern") is
not what the code does: a failed write can corrupt the previous contents of
`p`. -/
theorem saveWorldConfig_direct_write (filePath : String) (config : WorldConfig) :
    saveWorldConfig filePath config = [FsOp.write filePath config] ∧
    (∀ src dst, FsOp.rename src dst ∉ saveWorldConfig filePath config) ∧
    (∀ c, FsOp.write (filePath ++ ".tmp") c ∉ saveWorldConfig filePath config) := by
  refine ⟨rfl, ?_, ?_⟩
  · intro src dst h
    simp [saveWorldConfig] at h
  · intro c h
    simp [saveWorldConfig] at h
    have h4 : (".tmp" : String).length = 4 := by decide
    have hlen : (filePath ++ ".tmp").length = filePath.length + 4 := by
      simp [String.length_append, h4]
    rw [h.1] at hlen
    omega

/-- Witness for `saveWorldConfig_direct_write` at a concrete input. -/
theorem saveWorldConfig_direct_write_witness :
    saveWorldConfig "world_behavior_packs.json" [] =
      [FsOp.write "world_behavior_packs.json" []] ∧
    (∀ src dst, FsOp.rename src dst ∉ saveWorldConfig "world_behavior_packs.json" []) ∧
    (∀ c, FsOp.write ("world_behavior_packs.json" ++ ".tmp") c ∉
      saveWorldConfig "world_behavior_packs.json" []) :=
  saveWorldConfig_direct_write "world_behavior_packs.json" []

/-- **C9** (status: confirmed).  `RemovePackFromConfig(C, u)` deletes every
entry whose pack id equals `u` and keeps every other entry unchanged, in the
original relative order: it equals the filter of the non-matching entries,
every surviving entry's id differs from `u`, and the result is a sublist of
`C`. -/
theorem removePackFromConfig_spec (config : WorldConfig) (packID : String) :
    removePackFromConfig config packID =
      config.filter (fun p => p.packId != packID) ∧
    (∀ p ∈ removePackFromConfig config packID, p.packId ≠ packID) ∧
    (removePackFromConfig config packID).Sublist config := by
  have hfold := removePack_foldl_eq_filter packID config []
  refine ⟨by simpa [removePackFromConfig] using hfold, ?_, ?_⟩
  · intro p hp
    rw [removePackFromConfig, hfold] at hp
    simp only [List.nil_append, List.mem_filter, bne_iff_ne, ne_eq] at hp
    exact hp.2
  · rw [removePackFromConfig, hfold]
    simp only [List.nil_append]
    exact List.filter_sublist config

/-- **C6** (status: confirmed).  If `C` has an entry with pack id `u`,
`AddPackToConfig(C, u, v)` replaces the version of the first such entry in
place — the result has the same length, position `k` (the index of that
entry) now holds `{u, v}`, and every other position is unchanged — otherwise
it appends `{u, v}` at the end.  A forced reinstall of a registered UUID
therefore keeps the entry at its original position. -/
theorem addPackToConfig_spec (cfg : WorldConfig) (u : String) (v : Version) :
    (hasPack cfg u = true →
      (addPackToConfig cfg u v).length = cfg.length ∧
      (addPackToConfig cfg u v)[cfg.findIdx (fun p => p.packId == u)]? = some ⟨u, v⟩ ∧
      ∀ j, j ≠ cfg.findIdx (fun p => p.packId == u) →
        (addPackToConfig cfg u v)[j]? = cfg[j]?) ∧
    (hasPack cfg u = false → addPackToConfig cfg u v = cfg ++ [⟨u, v⟩]) := by
  induction cfg with
  | nil =>
    refine ⟨fun h => ?_, fun _ => rfl⟩
    simp [hasPack] at h
  | cons p rest ih =>
    by_cases hp : p.packId == u
    · have hpu : p.packId = u := by simpa using hp
      refine ⟨fun _ => ?_, fun h => ?_⟩
      · refine ⟨by simp [addPackToConfig, hp], ?_, ?_⟩
        · simp [addPackToConfig, hp, List.findIdx_cons, hpu]
        · intro j hj
          simp only [List.findIdx_cons, hp, cond_true] at hj
          match j with
          | 0 => exact absurd rfl hj
          | j + 1 => simp [addPackToConfig, hp]
      · simp [hasPack, hp] at h
    · have hrec : addPackToConfig (p :: rest) u v = p :: addPackToConfig rest u v := by
        simp [addPackToConfig, hp]
      have hhas : hasPack (p :: rest) u = hasPack rest u := by
        simp [hasPack, hp]
      have hidx : (p :: rest).findIdx (fun q => q.packId == u) =
          rest.findIdx (fun q => q.packId == u) + 1 := by
        simp [List.findIdx_cons, hp]
      refine ⟨fun h => ?_, fun h => ?_⟩
      · rw [hhas] at h
        obtain ⟨hlen, hget, hother⟩ := ih.1 h
        refine ⟨by simp [hrec, hlen], ?_, ?_⟩
        · rw [hrec, hidx]
          simpa using hget
        · intro j hj
          rw [hidx] at hj
          match j with
          | 0 => simp [hrec]
          | j + 1 =>
            have : j ≠ rest.findIdx (fun q => q.packId == u) := by omega
            rw [hrec]
            simpa using hother j this
      · rw [hhas] at h
        rw [hrec, ih.2 h]
        rfl

/-- Witness for `addPackToConfig_spec`: both branches discharged at concrete
configs. -/
theorem addPackToConfig_spec_witness :
    (hasPack [⟨"u1", (1, 0, 0)⟩, ⟨"u2", (1, 0, 0)⟩] "u1" = true →
      (addPackToConfig [⟨"u1", (1, 0, 0)⟩, ⟨"u2", (1, 0, 0)⟩] "u1" (2, 0, 0)).length =
        ([⟨"u1", (1, 0, 0)⟩, ⟨"u2", (1, 0, 0)⟩] : WorldConfig).length ∧
      (addPackToConfig [⟨"u1", (1, 0, 0)⟩, ⟨"u2", (1, 0, 0)⟩] "u1"
          (2, 0, 0))[([⟨"u1", (1, 0, 0)⟩, ⟨"u2", (1, 0, 0)⟩] : WorldConfig).findIdx
            (fun p => p.packId == "u1")]? = some ⟨"u1", (2, 0, 0)⟩ ∧
      ∀ j, j ≠ ([⟨"u1", (1, 0, 0)⟩, ⟨"u2", (1, 0, 0)⟩] : WorldConfig).findIdx
          (fun p => p.packId == "u1") →
        (addPackToConfig [⟨"u1", (1, 0, 0)⟩, ⟨"u2", (1, 0, 0)⟩] "u1" (2, 0, 0))[j]? =
          ([⟨"u1", (1, 0, 0)⟩, ⟨"u2", (1, 0, 0)⟩] : WorldConfig)[j]?) ∧
    (hasPack [⟨"u1", (1, 0, 0)⟩, ⟨"u2", (1, 0, 0)⟩] "u1" = false →
      addPackToConfig [⟨"u1", (1, 0, 0)⟩, ⟨"u2", (1, 0, 0)⟩] "u1" (2, 0, 0) =
        [⟨"u1", (1, 0, 0)⟩, ⟨"u2", (1, 0, 0)⟩] ++ [⟨"u1", (2, 0, 0)⟩]) :=
  addPackToConfig_spec [⟨"u1", (1, 0, 0)⟩, ⟨"u2", (1, 0, 0)⟩] "u1" (2, 0, 0)

/-- **C5** (status: code_bug).  `extractFile` never consults the entry's
symlink mode bit — its result is invariant under flipping `isSymlink` — and a
concrete entry flagged as a symlink is happily materialized as a regular file
in the destination instead of being rejected, contrary to the spec and to the
CHANGELOG's "Archive extraction now rejects any files with symlink mode bits
set". -/
theorem extractFile_ignores_symlink_bit :
    (∀ (nm : String) (dir sym sym' : Bool) (size : Nat) (dest : String),
      extractFile ⟨nm, dir, sym, size⟩ dest = extractFile ⟨nm, dir, sym', size⟩ dest) ∧
    extractFile ⟨"pack/link", false, true, 10⟩ "/tmp/dest" =
      Except.ok [ExtractAction.mkdirAll "/tmp/dest/pack",
        ExtractAction.writeFile "/tmp/dest/pack/link"] := by
  exact ⟨fun nm dir sym sym' size dest => rfl, rfl⟩

/-- The classification of `GetPackType.go` agrees with "first module whose
type is `data` or `resources`" on every module list. -/
theorem getPackTypeGo_eq_firstClassifying (mods : List ManifestModule) :
    (getPackType.go mods = PackType.behavior ↔ firstClassifyingType mods = some "data") ∧
    (getPackType.go mods = PackType.resource ↔
      firstClassifyingType mods = some "resources") ∧
    (getPackType.go mods = PackType.unknown ↔ firstClassifyingType mods = none) := by
  induction mods with
  | nil => simp [getPackType.go, firstClassifyingType]
  | cons mod rest ih =>
    by_cases hd : (mod.mtype == "data") = true
    · have hde : mod.mtype = "data" := by simpa using hd
      simp [getPackType.go, hd, firstClassifyingType, List.find?_cons, hde]
    · by_cases hr : (mod.mtype == "resources") = true
      · have hre : mod.mtype = "resources" := by simpa using hr
        simp [getPackType.go, hd, hr, firstClassifyingType, List.find?_cons, hre]
      · have hfc : firstClassifyingType (mod :: rest) = firstClassifyingType rest := by
          simp only [firstClassifyingType, List.find?_cons]
          have : (mod.mtype == "data" || mod.mtype == "resources") = false := by
            simp only [Bool.or_eq_false_iff]
            exact ⟨by simpa using hd, by simpa using hr⟩
          rw [this]
        have hgo : getPackType.go (mod :: rest) = getPackType.go rest := by
          simp [getPackType.go, hd, hr]
        rw [hfc, hgo]
        exact ih

/-- **C4** counterexample: a manifest whose single module has type `script`
(an otherwise valid pure-script behavior pack).  The claim says the pack type
is behavior; `GetPackType` returns unknown, and extraction rejects the
pack. -/
theorem getPackType_script_counterexample :
    getPackType scriptOnlyManifest = PackType.unknown ∧
    getPackType scriptOnlyManifest ≠ PackType.behavior ∧
    processManifest scriptOnlyManifest =
      Except.error "unable to determine pack type from manifest" :=
  ⟨rfl, by decide, rfl⟩

/-- **C4** (status: corrected).  `GetPackType` classifies by the first module
whose type is `data` (behavior) or `resources` (resource), skipping modules of
any other type — in particular `script` modules never classify a pack, so a
script-only pack is unknown; and extraction (`processManifest`) never accepts
a pack whose type is unknown. -/
theorem getPackType_spec (m : Manifest) :
    (getPackType m = PackType.behavior ↔ firstClassifyingType m.modules = some "data") ∧
    (getPackType m = PackType.resource ↔
      firstClassifyingType m.modules = some "resources") ∧
    (getPackType m = PackType.unknown ↔ firstClassifyingType m.modules = none) ∧
    (∀ p, processManifest m = Except.ok p →
      getPackType m ≠ PackType.unknown ∧ p = ⟨m, getPackType m⟩) := by
  have hgo := getPackTypeGo_eq_firstClassifying m.modules
  refine ⟨hgo.1, hgo.2.1, hgo.2.2, ?_⟩
  intro p hp
  unfold processManifest at hp
  by_cases h1 : (m.header.uuid == "") = true
  · rw [if_pos h1] at hp; cases hp
  · rw [if_neg h1] at hp
    by_cases h2 : m.modules.isEmpty = true
    · rw [if_pos h2] at hp; cases hp
    · rw [if_neg h2] at hp
      cases hv : validateManifest m with
      | error e => rw [hv] at hp; cases hp
      | ok u =>
        rw [hv] at hp
        by_cases h3 : (getPackType m == PackType.unknown) = true
        · rw [if_pos h3] at hp; cases hp
        · rw [if_neg h3] at hp
          cases hp
          exact ⟨by simpa using h3, rfl⟩

/-- Witness for `getPackType_spec`: the acceptance branch discharged on a
concrete `data`-module manifest. -/
theorem getPackType_spec_witness :
    getPackType (dataPackManifest "11111111-1111-1111-1111-111111111111" "Foo") ≠
      PackType.unknown ∧
    (⟨dataPackManifest "11111111-1111-1111-1111-111111111111" "Foo", PackType.behavior⟩ :
        ExtractedPack) =
      ⟨dataPackManifest "11111111-1111-1111-1111-111111111111" "Foo",
        getPackType (dataPackManifest "11111111-1111-1111-1111-111111111111" "Foo")⟩ :=
  (getPackType_spec (dataPackManifest "11111111-1111-1111-1111-111111111111" "Foo")).2.2.2
    ⟨dataPackManifest "11111111-1111-1111-1111-111111111111" "Foo", PackType.behavior⟩
    rfl

/-- `List.contains` on strings decides membership. -/
theorem contains_eq_false_iff_not_mem (l : List String) (x : String) :
    l.contains x = false ↔ x ∉ l := by
  simp [List.contains]

/-- Membership after one `insertUUID`. -/
theorem mem_insertUUID (set : List String) (id x : String) :
    x ∈ insertUUID set id ↔ x ∈ set ∨ x = id := by
  unfold insertUUID
  by_cases h : set.contains id = true
  · rw [if_pos h]
    have hid : id ∈ set := by simpa [List.contains] using h
    constructor
    · exact Or.inl
    · rintro (hx | rfl)
      · exact hx
      · exact hid
  · rw [if_neg h]
    simp

/-- Membership in the set built by folding `insertUUID` over a list. -/
theorem mem_foldl_insertUUID {α : Type} (f : α → String) (l : List α) (x : String) :
    ∀ set : List String,
      x ∈ l.foldl (fun s p => insertUUID s (f p)) set ↔ x ∈ set ∨ x ∈ l.map f := by
  induction l with
  | nil => intro set; simp
  | cons a rest ih =>
    intro set
    rw [List.foldl_cons, ih, mem_insertUUID]
    simp [or_assoc]

/-- A fold that conditionally appends singletons equals the accumulated list
followed by the filtered-and-mapped elements. -/
theorem foldl_guard_append_eq {α β : Type} (cond : α → Bool) (mk : α → β) (l : List α) :
    ∀ acc : List β,
      l.foldl (fun acc a => if cond a then acc ++ [mk a] else acc) acc =
        acc ++ (l.filter cond).map mk := by
  induction l with
  | nil => intro acc; simp
  | cons a rest ih =>
    intro acc
    rw [List.foldl_cons, List.filter_cons]
    by_cases h : cond a = true
    · rw [if_pos h, if_pos h, ih]
      simp
    · rw [if_neg h, if_neg h]
      exact ih acc

/-- A fold that appends a block per element is the accumulated list followed
by the concatenation of the blocks. -/
theorem foldl_append_eq_flatten {α β : Type} (g : α → List β) (l : List α) :
    ∀ acc : List β,
      l.foldl (fun acc a => acc ++ g a) acc = acc ++ (l.map g).flatten := by
  induction l with
  | nil => intro acc; simp
  | cons a rest ih =>
    intro acc
    rw [List.foldl_cons, ih]
    simp

/-- The `installedUUIDs` set holds exactly the installed UUIDs and the
incoming UUIDs. -/
theorem mem_incomingUnionSet (installed : List InstalledPack) (addon : ExtractedAddon)
    (x : String) :
    x ∈ incomingUnionSet installed addon ↔
      x ∈ installed.map (fun q => q.packId) ∨
        x ∈ (getAllPacks addon).map (fun q => q.manifest.header.uuid) := by
  unfold incomingUnionSet
  rw [mem_foldl_insertUUID, mem_foldl_insertUUID]
  simp

/-- **C7** (status: confirmed).  The installer's dependency check reports
exactly the declared pack-UUID dependencies of incoming packs that appear in
neither the installed UUIDs nor the incoming UUIDs; each report carries the
requiring pack's display name and the missing UUID, and module-name
dependencies (whose pack UUID is empty) are never reported. -/
theorem validateDependencies_spec (installed : List InstalledPack)
    (addon : ExtractedAddon) (r : MissingDep) :
    r ∈ validateDependencies installed addon ↔
      ∃ p ∈ getAllPacks addon, ∃ dep ∈ p.manifest.dependencies,
        dep.uuid ≠ "" ∧
        dep.uuid ∉ installed.map (fun q => q.packId) ∧
        dep.uuid ∉ (getAllPacks addon).map (fun q => q.manifest.header.uuid) ∧
        r = ⟨getDisplayName p.manifest, dep.uuid⟩ := by
  unfold validateDependencies
  have hstep :
      (fun (missing : List MissingDep) (p : ExtractedPack) =>
        p.manifest.dependencies.foldl
          (fun missing dep =>
            if dep.uuid != "" && !(incomingUnionSet installed addon).contains dep.uuid then
              missing ++ [(⟨getDisplayName p.manifest, dep.uuid⟩ : MissingDep)]
            else missing)
          missing) =
      (fun missing p =>
        missing ++
          ((p.manifest.dependencies.filter
              (fun dep =>
                dep.uuid != "" &&
                  !(incomingUnionSet installed addon).contains dep.uuid)).map
            (fun dep => (⟨getDisplayName p.manifest, dep.uuid⟩ : MissingDep)))) := by
    funext missing p
    exact foldl_guard_append_eq _ _ _ missing
  rw [hstep, foldl_append_eq_flatten]
  simp only [List.nil_append]
  rw [List.mem_flatten]
  constructor
  · rintro ⟨block, hblock, hr⟩
    rw [List.mem_map] at hblock
    obtain ⟨p, hp, rfl⟩ := hblock
    rw [List.mem_map] at hr
    obtain ⟨dep, hdep, rfl⟩ := hr
    rw [List.mem_filter] at hdep
    obtain ⟨hdepmem, hcond⟩ := hdep
    rw [Bool.and_eq_true] at hcond
    obtain ⟨hne, hnc⟩ := hcond
    rw [Bool.not_eq_true', contains_eq_false_iff_not_mem,
      mem_incomingUnionSet] at hnc
    push_neg at hnc
    exact ⟨p, hp, dep, hdepmem, by simpa using hne, hnc.1, hnc.2, rfl⟩
  · rintro ⟨p, hp, dep, hdep, hne, hni, hna, rfl⟩
    refine ⟨_, List.mem_map.mpr ⟨p, hp, rfl⟩, List.mem_map.mpr ⟨dep, ?_, rfl⟩⟩
    rw [List.mem_filter]
    refine ⟨hdep, ?_⟩
    rw [Bool.and_eq_true]
    refine ⟨by simpa using hne, ?_⟩
    rw [Bool.not_eq_true', contains_eq_false_iff_not_mem, mem_incomingUnionSet]
    push_neg
    exact ⟨hni, hna⟩

/-- Witness for `validateDependencies_spec`: a concrete unmet dependency is
reported. -/
theorem validateDependencies_spec_witness :
    (⟨"Foo", "44444444-4444-4444-4444-444444444444"⟩ : MissingDep) ∈
      validateDependencies [] depAddon :=
  (validateDependencies_spec [] depAddon
      ⟨"Foo", "44444444-4444-4444-4444-444444444444"⟩).mpr
    ⟨⟨depManifest, PackType.behavior⟩, by decide,
      ⟨"44444444-4444-4444-4444-444444444444", (1, 0, 0), "", ""⟩, by decide,
      by decide, by decide, by decide, by decide⟩

/-- `goToLower` is idempotent. -/
theorem goToLower_idem (c : Char) : goToLower (goToLower c) = goToLower c := by
  by_cases h : 65 ≤ c.toNat ∧ c.toNat ≤ 90
  · have h1 : goToLower c = Char.ofNat (c.toNat + 32) := by rw [goToLower, if_pos h]
    rw [h1]
    obtain ⟨ha, hb⟩ := h
    generalize hg : c.toNat = n
    rw [hg] at ha hb
    interval_cases n <;> decide
  · have h1 : goToLower c = c := by rw [goToLower, if_neg h]
    rw [h1, h1]

/-- `goToLower` never produces a dash from a non-dash. -/
theorem goToLower_ne_dash (c : Char) (h : c ≠ '-') : goToLower c ≠ '-' := by
  by_cases hr : 65 ≤ c.toNat ∧ c.toNat ≤ 90
  · rw [goToLower, if_pos hr]
    obtain ⟨ha, hb⟩ := hr
    generalize hg : c.toNat = n
    rw [hg] at ha hb
    interval_cases n <;> decide
  · rw [goToLower, if_neg hr]
    exact h

/-- `goToLower` fixes lowercase hex digits. -/
theorem goToLower_fixed_of_lowerHex (c : Char) (h : isLowerHexDigit c = true) :
    goToLower c = c := by
  rw [isLowerHexDigit] at h
  simp only [Bool.or_eq_true, Bool.and_eq_true, decide_eq_true_eq] at h
  rw [goToLower, if_neg (by omega : ¬(65 ≤ c.toNat ∧ c.toNat ≤ 90))]

/-- A lowercase hex digit is not a dash. -/
theorem lowerHex_ne_dash (c : Char) (h : isLowerHexDigit c = true) : c ≠ '-' := by
  intro heq
  subst heq
  exact absurd h (by decide)

/-- Every character of the `clean` intermediate is `goToLower`-fixed and is
not a dash. -/
theorem mem_cleanUUIDChars {s : String} {c : Char} (h : c ∈ cleanUUIDChars s) :
    goToLower c = c ∧ c ≠ '-' := by
  unfold cleanUUIDChars at h
  rw [List.mem_map] at h
  obtain ⟨d, hd, rfl⟩ := h
  rw [List.mem_filter] at hd
  have hdne : d ≠ '-' := by simpa using hd.2
  exact ⟨goToLower_idem d, goToLower_ne_dash d hdne⟩

/-- Filtering out dashes from a dash-free list is the identity. -/
theorem filter_ne_dash_of_forall {l : List Char} (h : ∀ c ∈ l, c ≠ '-') :
    l.filter (fun c => c != '-') = l :=
  List.filter_eq_self.mpr (fun c hc => by simpa using h c hc)

/-- The `clean` computation applied to a dashed 8-4-4-4-12 assembly of
dash-free, `goToLower`-fixed pieces recovers the concatenated pieces. -/
theorem cleanUUIDChars_parts (q1 q2 q3 q4 q5 : List Char)
    (h1 : ∀ c ∈ q1, goToLower c = c ∧ c ≠ '-')
    (h2 : ∀ c ∈ q2, goToLower c = c ∧ c ≠ '-')
    (h3 : ∀ c ∈ q3, goToLower c = c ∧ c ≠ '-')
    (h4 : ∀ c ∈ q4, goToLower c = c ∧ c ≠ '-')
    (h5 : ∀ c ∈ q5, goToLower c = c ∧ c ≠ '-') :
    ((q1 ++ '-' :: (q2 ++ '-' :: (q3 ++ '-' :: (q4 ++ '-' :: q5)))).filter
        (fun c => c != '-')).map goToLower = q1 ++ (q2 ++ (q3 ++ (q4 ++ q5))) := by
  have hfc : ∀ m : List Char,
      List.filter (fun c => c != '-') ('-' :: m) = List.filter (fun c => c != '-') m := by
    intro m
    simp [List.filter_cons]
  rw [List.filter_append, hfc, List.filter_append, hfc, List.filter_append, hfc,
    List.filter_append, hfc]
  rw [filter_ne_dash_of_forall (fun c hc => (h1 c hc).2),
    filter_ne_dash_of_forall (fun c hc => (h2 c hc).2),
    filter_ne_dash_of_forall (fun c hc => (h3 c hc).2),
    filter_ne_dash_of_forall (fun c hc => (h4 c hc).2),
    filter_ne_dash_of_forall (fun c hc => (h5 c hc).2)]
  rw [List.map_append, List.map_append, List.map_append, List.map_append]
  rw [List.map_congr_left (fun c hc => (h1 c hc).1),
    List.map_congr_left (fun c hc => (h2 c hc).1),
    List.map_congr_left (fun c hc => (h3 c hc).1),
    List.map_congr_left (fun c hc => (h4 c hc).1),
    List.map_congr_left (fun c hc => (h5 c hc).1)]
  simp

/-- The `clean` computation inverts the re-dashing of a dash-free,
`goToLower`-fixed 32-character list. -/
theorem cleanUUIDChars_dashed (l : List Char)
    (h : ∀ c ∈ l, goToLower c = c ∧ c ≠ '-') :
    cleanUUIDChars ⟨dashedChars l⟩ = l := by
  have hdata : (⟨dashedChars l⟩ : String).data = dashedChars l := rfl
  rw [cleanUUIDChars, hdata, dashedChars]
  rw [cleanUUIDChars_parts _ _ _ _ _
    (fun c hc => h c (List.mem_of_mem_take hc))
    (fun c hc => h c (List.mem_of_mem_drop (List.mem_of_mem_take hc)))
    (fun c hc => h c (List.mem_of_mem_drop (List.mem_of_mem_drop (List.mem_of_mem_take hc))))
    (fun c hc => h c (List.mem_of_mem_drop (List.mem_of_mem_drop
      (List.mem_of_mem_drop (List.mem_of_mem_take hc)))))
    (fun c hc => h c (List.mem_of_mem_drop (List.mem_of_mem_drop
      (List.mem_of_mem_drop (List.mem_of_mem_drop hc)))))]
  rw [List.take_append_drop 4 (((l.drop 8).drop 4).drop 4),
    List.take_append_drop 4 ((l.drop 8).drop 4),
    List.take_append_drop 4 (l.drop 8),
    List.take_append_drop 8 l]

/-- Idempotence of `NormalizeUUID`. -/
theorem normalizeUUID_idem_helper (s : String) :
    normalizeUUID (normalizeUUID s) = normalizeUUID s := by
  by_cases hlen : (cleanUUIDChars s).length = 32
  · have h1 : normalizeUUID s = ⟨dashedChars (cleanUUIDChars s)⟩ := by
      rw [normalizeUUID, if_pos hlen]
    have hclean : cleanUUIDChars ⟨dashedChars (cleanUUIDChars s)⟩ = cleanUUIDChars s :=
      cleanUUIDChars_dashed _ (fun c hc => mem_cleanUUIDChars hc)
    rw [h1, normalizeUUID, hclean, if_pos hlen]
  · have h1 : normalizeUUID s = s := by rw [normalizeUUID, if_neg hlen]
    rw [h1, h1]

/-- Decompose a successful `charRun`. -/
theorem charRun_some (p : Char → Bool) :
    ∀ (n : Nat) (l r : List Char), charRun p n l = some r →
      ∃ pre, l = pre ++ r ∧ pre.length = n ∧ ∀ c ∈ pre, p c = true := by
  intro n
  induction n with
  | zero =>
    intro l r h
    simp only [charRun, Option.some.injEq] at h
    exact ⟨[], by simp [h], rfl, by simp⟩
  | succ n ih =>
    intro l r h
    cases l with
    | nil => simp [charRun] at h
    | cons c cs =>
      simp only [charRun] at h
      by_cases hc : p c = true
      · rw [if_pos hc] at h
        obtain ⟨pre, hsplit, hlen, hall⟩ := ih cs r h
        refine ⟨c :: pre, by simp [hsplit], by simp [hlen], ?_⟩
        intro d hd
        rcases List.mem_cons.mp hd with rfl | hd2
        · exact hc
        · exact hall d hd2
      · rw [if_neg hc] at h
        cases h

/-- Decompose a successful `dashRun`. -/
theorem dashRun_some : ∀ l r : List Char, dashRun l = some r → l = '-' :: r := by
  intro l r h
  unfold dashRun at h
  split at h
  · cases h
    rfl
  · cases h

/-- `NormalizeUUID` is the identity on an already-normalized UUID. -/
theorem normalizeUUID_fixed_helper (s : String) (h : isNormalizedUUID s = true) :
    normalizeUUID s = s := by
  rw [isNormalizedUUID, beq_iff_eq] at h
  have step : ∀ (x : Option (List Char)) (g : List Char → Option (List Char))
      (r : List Char), (x >>= g) = some r → ∃ a, x = some a ∧ g a = some r := by
    intro x g r hx
    cases x with
    | none => exact Option.noConfusion hx
    | some a => exact ⟨a, rfl, hx⟩
  obtain ⟨r8, hb8, hc5⟩ := step _ _ _ h
  obtain ⟨r7, hb7, hd4⟩ := step _ _ _ hb8
  obtain ⟨r6, hb6, hc4⟩ := step _ _ _ hb7
  obtain ⟨r5, hb5, hd3⟩ := step _ _ _ hb6
  obtain ⟨r4, hb4, hc3⟩ := step _ _ _ hb5
  obtain ⟨r3, hb3, hd2⟩ := step _ _ _ hb4
  obtain ⟨r2, hb2, hc2⟩ := step _ _ _ hb3
  obtain ⟨r1, hc1, hd1⟩ := step _ _ _ hb2
  obtain ⟨p1, hs1, hl1, hh1⟩ := charRun_some _ _ _ _ hc1
  have he1 := dashRun_some _ _ hd1
  obtain ⟨p2, hs2, hl2, hh2⟩ := charRun_some _ _ _ _ hc2
  have he2 := dashRun_some _ _ hd2
  obtain ⟨p3, hs3, hl3, hh3⟩ := charRun_some _ _ _ _ hc3
  have he3 := dashRun_some _ _ hd3
  obtain ⟨p4, hs4, hl4, hh4⟩ := charRun_some _ _ _ _ hc4
  have he4 := dashRun_some _ _ hd4
  obtain ⟨p5, hs5, hl5, hh5⟩ := charRun_some _ _ _ _ hc5
  rw [List.append_nil] at hs5
  rw [he1, hs2, he2, hs3, he3, hs4, he4, hs5] at hs1
  have hw1 : ∀ c ∈ p1, goToLower c = c ∧ c ≠ '-' := fun c hc =>
    ⟨goToLower_fixed_of_lowerHex c (hh1 c hc), lowerHex_ne_dash c (hh1 c hc)⟩
  have hw2 : ∀ c ∈ p2, goToLower c = c ∧ c ≠ '-' := fun c hc =>
    ⟨goToLower_fixed_of_lowerHex c (hh2 c hc), lowerHex_ne_dash c (hh2 c hc)⟩
  have hw3 : ∀ c ∈ p3, goToLower c = c ∧ c ≠ '-' := fun c hc =>
    ⟨goToLower_fixed_of_lowerHex c (hh3 c hc), lowerHex_ne_dash c (hh3 c hc)⟩
  have hw4 : ∀ c ∈ p4, goToLower c = c ∧ c ≠ '-' := fun c hc =>
    ⟨goToLower_fixed_of_lowerHex c (hh4 c hc), lowerHex_ne_dash c (hh4 c hc)⟩
  have hw5 : ∀ c ∈ p5, goToLower c = c ∧ c ≠ '-' := fun c hc =>
    ⟨goToLower_fixed_of_lowerHex c (hh5 c hc), lowerHex_ne_dash c (hh5 c hc)⟩
  have hclean : cleanUUIDChars s = p1 ++ (p2 ++ (p3 ++ (p4 ++ p5))) := by
    rw [cleanUUIDChars, hs1]
    exact cleanUUIDChars_parts p1 p2 p3 p4 p5 hw1 hw2 hw3 hw4 hw5
  have hlen : (cleanUUIDChars s).length = 32 := by
    rw [hclean]
    simp [List.length_append, hl1, hl2, hl3, hl4, hl5]
  rw [normalizeUUID, if_pos hlen, hclean]
  have hdash : dashedChars (p1 ++ (p2 ++ (p3 ++ (p4 ++ p5)))) = s.data := by
    rw [dashedChars, List.take_left' hl1, List.drop_left' hl1,
      List.take_left' hl2, List.drop_left' hl2,
      List.take_left' hl3, List.drop_left' hl3,
      List.take_left' hl4, List.drop_left' hl4, hs1]
  rw [hdash]

/-- **C8** (status: confirmed).  `NormalizeUUID` is idempotent on every
string, and is the identity on every already-normalized UUID (lowercase hex
with dashes in the 8-4-4-4-12 positions). -/
theorem normalizeUUID_spec :
    (∀ x, normalizeUUID (normalizeUUID x) = normalizeUUID x) ∧
    (∀ x, isNormalizedUUID x = true → normalizeUUID x = x) :=
  ⟨normalizeUUID_idem_helper, normalizeUUID_fixed_helper⟩

/-- Witness for `normalizeUUID_spec` at concrete inputs. -/
theorem normalizeUUID_spec_witness :
    normalizeUUID (normalizeUUID "ABCDEF01-2345-6789-ABCD-EF0123456789") =
      normalizeUUID "ABCDEF01-2345-6789-ABCD-EF0123456789" ∧
    isNormalizedUUID "12345678-1234-1234-1234-123456789abc" = true ∧
    normalizeUUID "12345678-1234-1234-1234-123456789abc" =
      "12345678-1234-1234-1234-123456789abc" :=
  ⟨normalizeUUID_spec.1 "ABCDEF01-2345-6789-ABCD-EF0123456789", by decide,
    normalizeUUID_spec.2 "12345678-1234-1234-1234-123456789abc" (by decide)⟩

/-- **C10** (status: confirmed).  When the same pack UUID is registered in
both world configs (and a matching behavior pack directory exists),
`UninstallPack` checks the behavior config first and returns success after
removing only the behavior-side registration and the matching behavior pack
directory; the resource config entry — still registered — the resource pack
directories, and the history files are untouched. -/
theorem uninstallPack_behavior_side_only (s : ServerState) (packID : String)
    (newDirs : List PackDirEntry)
    (hb : hasPack s.behaviorConfig packID = true)
    (hr : hasPack s.resourceConfig packID = true)
    (hdir : removePackDirScan s.behaviorDirs packID = some newDirs) :
    (uninstallPack s packID false).2 = none ∧
    (uninstallPack s packID false).1.behaviorConfig =
      removePackFromConfig s.behaviorConfig packID ∧
    (uninstallPack s packID false).1.behaviorDirs = newDirs ∧
    (uninstallPack s packID false).1.resourceConfig = s.resourceConfig ∧
    (uninstallPack s packID false).1.resourceDirs = s.resourceDirs ∧
    (uninstallPack s packID false).1.behaviorHistory = s.behaviorHistory ∧
    (uninstallPack s packID false).1.resourceHistory = s.resourceHistory ∧
    hasPack (uninstallPack s packID false).1.resourceConfig packID = true := by
  have hrun : uninstallPack s packID false =
      ({ s with
          behaviorConfig := removePackFromConfig s.behaviorConfig packID
          behaviorDirs := newDirs }, none) := by
    rw [uninstallPack, if_pos hb]
    simp only []
    rw [hdir]
    rfl
  rw [hrun]
  exact ⟨rfl, rfl, rfl, rfl, rfl, rfl, rfl, hr⟩

/-- Witness for `uninstallPack_behavior_side_only` on `serverWithBoth`. -/
theorem uninstallPack_behavior_side_only_witness :
    (uninstallPack serverWithBoth "u1" false).2 = none ∧
    (uninstallPack serverWithBoth "u1" false).1.behaviorConfig =
      removePackFromConfig serverWithBoth.behaviorConfig "u1" ∧
    (uninstallPack serverWithBoth "u1" false).1.behaviorDirs = [] ∧
    (uninstallPack serverWithBoth "u1" false).1.resourceConfig =
      serverWithBoth.resourceConfig ∧
    (uninstallPack serverWithBoth "u1" false).1.resourceDirs =
      serverWithBoth.resourceDirs ∧
    (uninstallPack serverWithBoth "u1" false).1.behaviorHistory =
      serverWithBoth.behaviorHistory ∧
    (uninstallPack serverWithBoth "u1" false).1.resourceHistory =
      serverWithBoth.resourceHistory ∧
    hasPack (uninstallPack serverWithBoth "u1" false).1.resourceConfig "u1" = true :=
  uninstallPack_behavior_side_only serverWithBoth "u1" [] (by decide) (by decide)
    (by decide)

/-- **C2** counterexample: install a two-behavior-pack addon on an empty
server and let the second pack's `copyDir` fail.  The install fails after the
backup step and the backup is restored successfully, yet the post-state
differs from the pre-state — the first pack's directory remains under the
behavior pack root — and the result carries no rollback error (the install
backup snapshots only the four config files, never the pack directories). -/
theorem installAddon_rollback_counterexample :
    (installAddonFromBackup emptyServer twoBehaviorAddon (some 1) false).2.success =
      false ∧
    ((installAddonFromBackup emptyServer twoBehaviorAddon (some 1) false).2.errors.all
      (fun e => !isRollbackIssue e)) = true ∧
    (installAddonFromBackup emptyServer twoBehaviorAddon (some 1) false).1 ≠
      emptyServer ∧
    (installAddonFromBackup emptyServer twoBehaviorAddon (some 1) false).1.behaviorDirs ≠
      emptyServer.behaviorDirs := by decide

/-- **C2** (status: corrected).  For every install that fails after the backup
step: when the restore succeeds, the four snapshotted config files (both world
configs and both history files) of the post-state equal the pre-state's; when
the restore fails, the result carries a rollback error.  Nothing guarantees
the pack directories are restored — the install backup does not include
them. -/
theorem installAddon_restores_configs (s : ServerState) (addon : ExtractedAddon)
    (failAt : Option Nat) (restoreFails : Bool)
    (hfail : (installAddonFromBackup s addon failAt restoreFails).2.success = false) :
    (restoreFails = false →
      (installAddonFromBackup s addon failAt restoreFails).1.behaviorConfig =
        s.behaviorConfig ∧
      (installAddonFromBackup s addon failAt restoreFails).1.resourceConfig =
        s.resourceConfig ∧
      (installAddonFromBackup s addon failAt restoreFails).1.behaviorHistory =
        s.behaviorHistory ∧
      (installAddonFromBackup s addon failAt restoreFails).1.resourceHistory =
        s.resourceHistory) ∧
    (restoreFails = true →
      ((installAddonFromBackup s addon failAt restoreFails).2.errors.any
        (fun e => isRollbackIssue e)) = true) := by
  unfold installAddonFromBackup at hfail ⊢
  cases hip : installPacks s (getAllPacks addon) failAt 0 with
  | mk s1 err =>
    rw [hip] at hfail
    cases err with
    | some e =>
      cases restoreFails with
      | false =>
        constructor
        · intro _
          simp [restoreBackup, createInstallBackup]
        · intro hcontra
          cases hcontra
      | true =>
        constructor
        · intro hcontra
          cases hcontra
        · intro _
          simp [restoreBackup, isRollbackIssue]
    | none =>
      cases hpv : postInstallValidation s1 addon with
      | true => simp [hpv] at hfail
      | false =>
        cases restoreFails with
        | false =>
          constructor
          · intro _
            simp [restoreBackup, createInstallBackup, hpv]
          · intro hcontra
            cases hcontra
        | true =>
          constructor
          · intro hcontra
            cases hcontra
          · intro _
            simp [restoreBackup, isRollbackIssue, hpv]

/-- Witness for `installAddon_restores_configs` on the concrete failing
install. -/
theorem installAddon_restores_configs_witness :
    (false = false →
      (installAddonFromBackup emptyServer twoBehaviorAddon (some 1) false).1.behaviorConfig =
        emptyServer.behaviorConfig ∧
      (installAddonFromBackup emptyServer twoBehaviorAddon (some 1) false).1.resourceConfig =
        emptyServer.resourceConfig ∧
      (installAddonFromBackup emptyServer twoBehaviorAddon (some 1) false).1.behaviorHistory =
        emptyServer.behaviorHistory ∧
      (installAddonFromBackup emptyServer twoBehaviorAddon (some 1) false).1.resourceHistory =
        emptyServer.resourceHistory) ∧
    (false = true →
      ((installAddonFromBackup emptyServer twoBehaviorAddon (some 1) false).2.errors.any
        (fun e => isRollbackIssue e)) = true) :=
  installAddon_restores_configs emptyServer twoBehaviorAddon (some 1) false (by decide)

/-- A successful relationship lookup returns a stored entry. -/
theorem lookupRel_some {rels : List (String × PackRel)} {id : String} {rel : PackRel}
    (h : lookupRel rels id = some rel) : ∃ e ∈ rels, e.2 = rel ∧ e.1 = id := by
  unfold lookupRel at h
  cases hf : rels.find? (fun e => e.1 == id) with
  | none => rw [hf] at h; cases h
  | some e =>
    rw [hf] at h
    cases h
    have hmem := List.mem_of_find?_eq_some hf
    have hkey := List.find?_some hf
    exact ⟨e, hmem, rfl, by simpa using hkey⟩

/-- With duplicate-free keys, two stored entries with the same key are
equal. -/
theorem entry_eq_of_key_eq :
    ∀ (l : List (String × PackRel)), (l.map (fun e => e.1)).Nodup →
      ∀ e f : String × PackRel, e ∈ l → f ∈ l → e.1 = f.1 → e = f := by
  intro l
  induction l with
  | nil => intro _ e f he _ _; cases he
  | cons a rest ih =>
    intro h e f he hf hk
    rw [List.map_cons, List.nodup_cons] at h
    rcases List.mem_cons.mp he with rfl | he2
    · rcases List.mem_cons.mp hf with rfl | hf2
      · rfl
      · exfalso
        apply h.1
        rw [hk]
        exact List.mem_map_of_mem _ hf2
    · rcases List.mem_cons.mp hf with rfl | hf2
      · exfalso
        apply h.1
        rw [← hk]
        exact List.mem_map_of_mem _ he2
      · exact ih h.2 e f he2 hf2 hk

/-- One top-loop iteration either keeps the cycle list or appends one block
of looked-up pack records. -/
theorem detectStep_cycles (rels : List (String × PackRel)) (fuel : Nat)
    (acc : DfsState × List String × List (List PackRel)) (id : String) :
    (detectStep rels fuel acc id).2.2 = acc.2.2 ∨
    ∃ cyclePath : List String, (detectStep rels fuel acc id).2.2 =
      acc.2.2 ++ [cyclePath.filterMap (lookupRel rels)] := by
  obtain ⟨st, found, cycles⟩ := acc
  simp only [detectStep]
  by_cases hv : (!st.visited.contains id) = true
  · rw [if_pos hv]
    cases hrun : dfsRun rels fuel (DfsFrame.visit id []) st with
    | mk cycOpt st2 =>
      cases cycOpt with
      | some cyclePath =>
        simp only []
        by_cases hk : (!found.contains (cycleKey cyclePath)) = true
        · rw [if_pos hk]
          by_cases hlen : ((cyclePath.filterMap (lookupRel rels)).length > 0)
          · rw [if_pos (by simpa using hlen)]
            exact Or.inr ⟨cyclePath, rfl⟩
          · rw [if_neg (by simpa using hlen)]
            exact Or.inl rfl
        · rw [if_neg hk]
          exact Or.inl rfl
      | none => exact Or.inl rfl
  · rw [if_neg hv]
    exact Or.inl rfl

/-- Every member of every reported circular group is an installed pack: its
id is a key of the relationship map. -/
theorem detect_members_keys (rels : List (String × PackRel))
    (hcoh : ∀ e ∈ rels, e.2.packId = e.1) :
    ∀ cyc ∈ detectCircularDependencies rels, ∀ rel ∈ cyc,
      rel.packId ∈ rels.map (fun e => e.1) := by
  unfold detectCircularDependencies
  suffices h : ∀ (ids : List String) (acc : DfsState × List String × List (List PackRel)),
      (∀ cyc ∈ acc.2.2, ∀ rel ∈ cyc, rel.packId ∈ rels.map (fun e => e.1)) →
      ∀ cyc ∈ (ids.foldl (detectStep rels (dfsFuel rels)) acc).2.2, ∀ rel ∈ cyc,
        rel.packId ∈ rels.map (fun e => e.1) by
    exact h _ _ (by simp)
  intro ids
  induction ids with
  | nil =>
    intro acc hacc
    simpa using hacc
  | cons id more ih =>
    intro acc hacc
    rw [List.foldl_cons]
    apply ih
    rcases detectStep_cycles rels (dfsFuel rels) acc id with heq | ⟨cp, heq⟩
    · rw [heq]
      exact hacc
    · rw [heq]
      intro cyc hcyc rel hrel
      rcases List.mem_append.mp hcyc with hin | hin
      · exact hacc cyc hin rel hrel
      · rw [List.mem_singleton] at hin
        subst hin
        rw [List.mem_filterMap] at hrel
        obtain ⟨id2, _, hlook⟩ := hrel
        obtain ⟨e, hemem, herel, _⟩ := lookupRel_some hlook
        have hpk := hcoh e hemem
        rw [herel] at hpk
        rw [hpk]
        exact List.mem_map_of_mem _ hemem

/-- `List.contains` on strings decides membership (positive form). -/
theorem contains_eq_true_iff_mem (l : List String) (x : String) :
    l.contains x = true ↔ x ∈ l := by
  simp [List.contains]

/-- Extending the scanned entries by a head that cannot satisfy the predicate
leaves a membership characterization unchanged. -/
theorem cat_iff_untouched {α β : Type} {resultCat gCat : List β} {rest : List α}
    {head : α} {x : β} {P : α → Prop}
    (hiff : x ∈ resultCat ↔ x ∈ gCat ∨ ∃ e ∈ rest, P e) (hhead : ¬P head) :
    x ∈ resultCat ↔ x ∈ gCat ∨ ∃ e ∈ head :: rest, P e := by
  rw [hiff, List.exists_mem_cons_iff]
  tauto

/-- Appending one record to a category while extending the scanned entries by
a head that characterizes exactly that record. -/
theorem cat_iff_added {α β : Type} {resultCat gCat : List β} {rel x : β}
    {rest : List α} {head : α} {P : α → Prop}
    (hiff : x ∈ resultCat ↔ x ∈ gCat ++ [rel] ∨ ∃ e ∈ rest, P e)
    (hhead : P head ↔ x = rel) :
    x ∈ resultCat ↔ x ∈ gCat ∨ ∃ e ∈ head :: rest, P e := by
  rw [hiff, List.exists_mem_cons_iff, List.mem_append, List.mem_singleton, hhead]
  tauto

/-- Membership characterization of the classification loop: under
duplicate-free keys disjoint from the processed set, the final circular
groups are untouched, and a pack record lands in root / dependent /
standalone exactly for the stored entries outside the circular set whose
dependency lists have the matching shape. -/
theorem classifyPacks_char (inCirc : List String) :
    ∀ (entries : List (String × PackRel)) (processed : List String)
      (g : DependencyGroup),
      (entries.map (fun e => e.1)).Nodup →
      (∀ q ∈ entries.map (fun e => e.1), q ∉ processed) →
      (classifyPacks inCirc entries processed g).circularGroups = g.circularGroups ∧
      ∀ x : PackRel,
        (x ∈ (classifyPacks inCirc entries processed g).rootPacks ↔
          x ∈ g.rootPacks ∨ ∃ e ∈ entries, e.2 = x ∧ e.1 ∉ inCirc ∧
            x.deps = [] ∧ x.dependents ≠ []) ∧
        (x ∈ (classifyPacks inCirc entries processed g).dependentPacks ↔
          x ∈ g.dependentPacks ∨ ∃ e ∈ entries, e.2 = x ∧ e.1 ∉ inCirc ∧
            x.deps ≠ []) ∧
        (x ∈ (classifyPacks inCirc entries processed g).standalonePacks ↔
          x ∈ g.standalonePacks ∨ ∃ e ∈ entries, e.2 = x ∧ e.1 ∉ inCirc ∧
            x.deps = [] ∧ x.dependents = []) := by
  intro entries
  induction entries with
  | nil =>
    intro processed g _ _
    refine ⟨rfl, fun x => ?_⟩
    simp [classifyPacks]
  | cons a rest ih =>
    intro processed g hnodup hdisj
    obtain ⟨k, rel⟩ := a
    have hknp : k ∉ processed := hdisj k (by simp)
    have hkc : processed.contains k = false :=
      (contains_eq_false_iff_not_mem processed k).mpr hknp
    rw [List.map_cons, List.nodup_cons] at hnodup
    have hrest_disj : ∀ q ∈ rest.map (fun e => e.1), q ∉ (k :: processed) := by
      intro q hq hmem
      rcases List.mem_cons.mp hmem with rfl | hmem2
      · exact hnodup.1 hq
      · exact hdisj q (List.mem_cons_of_mem _ hq) hmem2
    by_cases hkic : k ∈ inCirc
    · have hkicb : inCirc.contains k = true :=
        (contains_eq_true_iff_mem inCirc k).mpr hkic
      have hrw : classifyPacks inCirc ((k, rel) :: rest) processed g =
          classifyPacks inCirc rest (k :: processed) g := by
        simp only [classifyPacks, hkc, hkicb]
        simp
      rw [hrw]
      obtain ⟨hcirc, hmem⟩ := ih (k :: processed) g hnodup.2 hrest_disj
      refine ⟨hcirc, fun x => ?_⟩
      obtain ⟨h1, h2, h3⟩ := hmem x
      exact ⟨cat_iff_untouched h1 (fun hP => hP.2.1 hkic),
        cat_iff_untouched h2 (fun hP => hP.2.1 hkic),
        cat_iff_untouched h3 (fun hP => hP.2.1 hkic)⟩
    · have hkicb : inCirc.contains k = false :=
        (contains_eq_false_iff_not_mem inCirc k).mpr hkic
      by_cases hd : rel.deps = []
      · by_cases hdd : rel.dependents = []
        · -- standalone branch
          have hrw : classifyPacks inCirc ((k, rel) :: rest) processed g =
              classifyPacks inCirc rest (k :: processed)
                { g with standalonePacks := g.standalonePacks ++ [rel] } := by
            simp only [classifyPacks, hkc, hkicb]
            simp [hd, hdd]
          rw [hrw]
          obtain ⟨hcirc, hmem⟩ := ih (k :: processed) _ hnodup.2 hrest_disj
          refine ⟨hcirc, fun x => ?_⟩
          obtain ⟨h1, h2, h3⟩ := hmem x
          refine ⟨cat_iff_untouched h1
              (fun hP => hP.2.2.2 ((show rel = x from hP.1) ▸ hdd)),
            cat_iff_untouched h2
              (fun hP => hP.2.2 ((show rel = x from hP.1) ▸ hd)),
            cat_iff_added h3 ?_⟩
          constructor
          · intro hP
            exact hP.1.symm
          · intro hx
            subst hx
            exact ⟨rfl, hkic, hd, hdd⟩
        · -- root branch
          have hrw : classifyPacks inCirc ((k, rel) :: rest) processed g =
              classifyPacks inCirc rest (k :: processed)
                { g with rootPacks := g.rootPacks ++ [rel] } := by
            simp only [classifyPacks, hkc, hkicb]
            rcases List.exists_cons_of_ne_nil hdd with ⟨c, cs, hcs⟩
            simp [hd, hcs]
          rw [hrw]
          obtain ⟨hcirc, hmem⟩ := ih (k :: processed) _ hnodup.2 hrest_disj
          refine ⟨hcirc, fun x => ?_⟩
          obtain ⟨h1, h2, h3⟩ := hmem x
          refine ⟨cat_iff_added h1 ?_,
            cat_iff_untouched h2
              (fun hP => hP.2.2 ((show rel = x from hP.1) ▸ hd)),
            cat_iff_untouched h3
              (fun hP => hdd ((show rel = x from hP.1) ▸ hP.2.2.2))⟩
          constructor
          · intro hP
            exact hP.1.symm
          · intro hx
            subst hx
            exact ⟨rfl, hkic, hd, hdd⟩
      · -- dependent branch (deps nonempty, regardless of dependents)
        have hrw : classifyPacks inCirc ((k, rel) :: rest) processed g =
            classifyPacks inCirc rest (k :: processed)
              { g with dependentPacks := g.dependentPacks ++ [rel] } := by
          simp only [classifyPacks, hkc, hkicb]
          rcases List.exists_cons_of_ne_nil hd with ⟨c, cs, hcs⟩
          simp [hcs]
        rw [hrw]
        obtain ⟨hcirc, hmem⟩ := ih (k :: processed) _ hnodup.2 hrest_disj
        refine ⟨hcirc, fun x => ?_⟩
        obtain ⟨h1, h2, h3⟩ := hmem x
        refine ⟨cat_iff_untouched h1
            (fun hP => hd ((show rel = x from hP.1) ▸ hP.2.2.1)),
          cat_iff_added h2 ?_,
          cat_iff_untouched h3
            (fun hP => hd ((show rel = x from hP.1) ▸ hP.2.2.1))⟩
        constructor
        · intro hP
          exact hP.1.symm
        · intro hx
          subst hx
          exact ⟨rfl, hkic, hd⟩

/-- C3: counterexample.  In the three-node graph `a -> b`, `b -> a`, `b -> c`,
`c -> b` (after reverse-edge computation), the nodes `b` and `c` depend on
each other, so `c` lies on a dependency cycle; yet under every one of the six
map iteration orders the analyzer classifies `c` as a dependent pack and no
reported circular group contains it, because the DFS early-returns with the
first cycle it finds and never revisits `c`. -/
theorem groupPacks_cycle_missed_counterexample :
    (depOrders.all (fun rels =>
      ((lookupRel (calculateDependents rels) "b").map
        (fun r => r.deps.contains "c")).getD false &&
      ((lookupRel (calculateDependents rels) "c").map
        (fun r => r.deps.contains "b")).getD false &&
      ((groupPacksByRelationships (calculateDependents rels)).dependentPacks.map
        (fun r => r.packId)).contains "c" &&
      !(((groupPacksByRelationships (calculateDependents rels)).circularGroups.flatten.map
        (fun r => r.packId)).contains "c"))) = true := by decide

/-- C3 (amended): with duplicate-free keys and records whose stored id
matches their key, `groupPacksByRelationships` keeps the detected circular
groups unchanged; every stored pack is either a member of a reported circular
group or lands in one of the three classification lists; every classified
pack is a stored record whose id is outside every reported circular group;
the three classification lists are pairwise disjoint; and every member of a
reported circular group is a stored pack.  (The original claim is false: a
pack can lie on a dependency cycle yet be classified, see
`groupPacks_cycle_missed_counterexample`.) -/
theorem groupPacks_spec (rels : List (String × PackRel))
    (hnodup : (rels.map (fun e => e.1)).Nodup)
    (hcoh : ∀ e ∈ rels, e.2.packId = e.1) :
    (groupPacksByRelationships rels).circularGroups =
      detectCircularDependencies rels ∧
    (∀ e ∈ rels,
      e.2.packId ∈
        ((detectCircularDependencies rels).flatten.map (fun r => r.packId)) ∨
      e.2 ∈ (groupPacksByRelationships rels).rootPacks ∨
      e.2 ∈ (groupPacksByRelationships rels).dependentPacks ∨
      e.2 ∈ (groupPacksByRelationships rels).standalonePacks) ∧
    (∀ x : PackRel,
      x ∈ (groupPacksByRelationships rels).rootPacks ∨
      x ∈ (groupPacksByRelationships rels).dependentPacks ∨
      x ∈ (groupPacksByRelationships rels).standalonePacks →
      (∃ e ∈ rels, e.2 = x) ∧
      x.packId ∉
        ((detectCircularDependencies rels).flatten.map (fun r => r.packId))) ∧
    (∀ x : PackRel,
      ¬(x ∈ (groupPacksByRelationships rels).rootPacks ∧
        x ∈ (groupPacksByRelationships rels).dependentPacks) ∧
      ¬(x ∈ (groupPacksByRelationships rels).rootPacks ∧
        x ∈ (groupPacksByRelationships rels).standalonePacks) ∧
      ¬(x ∈ (groupPacksByRelationships rels).dependentPacks ∧
        x ∈ (groupPacksByRelationships rels).standalonePacks)) ∧
    (∀ cyc ∈ (groupPacksByRelationships rels).circularGroups, ∀ r ∈ cyc,
      r.packId ∈ rels.map (fun e => e.1)) := by
  have hdisj0 : ∀ q ∈ rels.map (fun e => e.1), q ∉ ([] : List String) := by
    simp
  obtain ⟨hcirc0, hmem⟩ := classifyPacks_char
    ((detectCircularDependencies rels).flatten.map (fun r => r.packId)) rels []
    ⟨[], [], [], detectCircularDependencies rels⟩ hnodup hdisj0
  have hg : groupPacksByRelationships rels =
      classifyPacks
        ((detectCircularDependencies rels).flatten.map (fun r => r.packId))
        rels [] ⟨[], [], [], detectCircularDependencies rels⟩ := rfl
  refine ⟨?_, ?_, ?_, ?_, ?_⟩
  · rw [hg]
    exact hcirc0
  · intro e he
    by_cases hic :
        e.1 ∈ (detectCircularDependencies rels).flatten.map (fun r => r.packId)
    · left
      rw [hcoh e he]
      exact hic
    · by_cases hd : e.2.deps = []
      · by_cases hdd : e.2.dependents = []
        · right; right; right
          rw [hg]
          exact ((hmem e.2).2.2).mpr (Or.inr ⟨e, he, rfl, hic, hd, hdd⟩)
        · right; left
          rw [hg]
          exact ((hmem e.2).1).mpr (Or.inr ⟨e, he, rfl, hic, hd, hdd⟩)
      · right; right; left
        rw [hg]
        exact ((hmem e.2).2.1).mpr (Or.inr ⟨e, he, rfl, hic, hd⟩)
  · intro x hx
    have hstored :
        ∃ e ∈ rels, e.2 = x ∧
          e.1 ∉ (detectCircularDependencies rels).flatten.map
            (fun r => r.packId) := by
      rcases hx with hx | hx | hx
      · rw [hg] at hx
        rcases ((hmem x).1).mp hx with hnil | ⟨e, he, hex, hic, _⟩
        · exact absurd hnil (List.not_mem_nil x)
        · exact ⟨e, he, hex, hic⟩
      · rw [hg] at hx
        rcases ((hmem x).2.1).mp hx with hnil | ⟨e, he, hex, hic, _⟩
        · exact absurd hnil (List.not_mem_nil x)
        · exact ⟨e, he, hex, hic⟩
      · rw [hg] at hx
        rcases ((hmem x).2.2).mp hx with hnil | ⟨e, he, hex, hic, _⟩
        · exact absurd hnil (List.not_mem_nil x)
        · exact ⟨e, he, hex, hic⟩
    obtain ⟨e, he, hex, hic⟩ := hstored
    refine ⟨⟨e, he, hex⟩, ?_⟩
    have hpk : x.packId = e.1 := by
      rw [← hex]
      exact hcoh e he
    rw [hpk]
    exact hic
  · intro x
    refine ⟨?_, ?_, ?_⟩
    · rintro ⟨hr, hd⟩
      rw [hg] at hr hd
      rcases ((hmem x).1).mp hr with hnil | ⟨e, he, hex, hic, hdeps, hdeps2⟩
      · exact absurd hnil (List.not_mem_nil x)
      · rcases ((hmem x).2.1).mp hd with hnil2 | ⟨f, hf, hfx, hfic, hfdeps⟩
        · exact absurd hnil2 (List.not_mem_nil x)
        · exact hfdeps hdeps
    · rintro ⟨hr, hs⟩
      rw [hg] at hr hs
      rcases ((hmem x).1).mp hr with hnil | ⟨e, he, hex, hic, hdeps, hdeps2⟩
      · exact absurd hnil (List.not_mem_nil x)
      · rcases ((hmem x).2.2).mp hs with hnil2 | ⟨f, hf, hfx, hfic, hfd, hfdd⟩
        · exact absurd hnil2 (List.not_mem_nil x)
        · exact hdeps2 hfdd
    · rintro ⟨hd, hs⟩
      rw [hg] at hd hs
      rcases ((hmem x).2.1).mp hd with hnil | ⟨e, he, hex, hic, hdeps⟩
      · exact absurd hnil (List.not_mem_nil x)
      · rcases ((hmem x).2.2).mp hs with hnil2 | ⟨f, hf, hfx, hfic, hfd, hfdd⟩
        · exact absurd hnil2 (List.not_mem_nil x)
        · exact hdeps hfd
  · rw [hg, hcirc0]
    exact detect_members_keys rels hcoh

/-- Witness for `groupPacks_spec` on the concrete two-cycle graph. -/
theorem groupPacks_spec_witness :
    ((depRels.map (fun e => e.1)).Nodup ∧
      ∀ e ∈ depRels, e.2.packId = e.1) ∧
    ((groupPacksByRelationships depRels).circularGroups =
      detectCircularDependencies depRels ∧
    (∀ e ∈ depRels,
      e.2.packId ∈
        ((detectCircularDependencies depRels).flatten.map (fun r => r.packId)) ∨
      e.2 ∈ (groupPacksByRelationships depRels).rootPacks ∨
      e.2 ∈ (groupPacksByRelationships depRels).dependentPacks ∨
      e.2 ∈ (groupPacksByRelationships depRels).standalonePacks) ∧
    (∀ x : PackRel,
      x ∈ (groupPacksByRelationships depRels).rootPacks ∨
      x ∈ (groupPacksByRelationships depRels).dependentPacks ∨
      x ∈ (groupPacksByRelationships depRels).standalonePacks →
      (∃ e ∈ depRels, e.2 = x) ∧
      x.packId ∉
        ((detectCircularDependencies depRels).flatten.map (fun r => r.packId))) ∧
    (∀ x : PackRel,
      ¬(x ∈ (groupPacksByRelationships depRels).rootPacks ∧
        x ∈ (groupPacksByRelationships depRels).dependentPacks) ∧
      ¬(x ∈ (groupPacksByRelationships depRels).rootPacks ∧
        x ∈ (groupPacksByRelationships depRels).standalonePacks) ∧
      ¬(x ∈ (groupPacksByRelationships depRels).dependentPacks ∧
        x ∈ (groupPacksByRelationships depRels).standalonePacks)) ∧
    (∀ cyc ∈ (groupPacksByRelationships depRels).circularGroups, ∀ r ∈ cyc,
      r.packId ∈ depRels.map (fun e => e.1))) :=
  ⟨⟨by decide, by decide⟩, groupPacks_spec depRels (by decide) (by decide)⟩

end Blockbench
